import Mathlib

/-!
Verification development for the `option_bot` ingestion engine
(`src/option_bot/polygon_utils.py`).

The pagination engine (`PolygonPaginator.query_all`), the rate governor
(`_api_sleep_time` and the throttle block at the top of `query_all`), the
batch sequencer (`make_clean_generator`), the per-kind record normalizers
(`clean_data` of `StockMetaData`, `HistoricalStockPrices`,
`OptionsContracts`) and the calendar window generator
(`OptionsContracts._determine_base_dates`) are embedded shallowly:

* The upstream API is modelled as a finite script (list) of responses,
  consumed one per issued request.  `query_all` is defined by structural
  recursion on that script, which models termination of any finite
  pagination chain.
* Python dicts (payloads, and the dict comprehension used for the
  option-contract dedup) are modelled as insertion-ordered association
  lists with upsert semantics (`dictUpsert`): assigning to an existing key
  replaces its value in place, a new key is appended at the end.
* Timestamps (`time.time()`) are modelled as rationals (epoch seconds).
-/

namespace OptionBot

/-- Opaque JSON scalar values moved around by the normalizers. -/
inductive Val where
  | vstr (s : String)
  | vint (n : Int)
  | vbool (b : Bool)
  | vdate (d : Int)
deriving DecidableEq, Repr, Inhabited

/-- Python dict assignment `d[k] = v` on an insertion-ordered association
list: replace in place when the key is present, append otherwise. -/
def dictUpsert {K V : Type} [DecidableEq K] (k : K) (v : V) : List (K × V) → List (K × V)
  | [] => [(k, v)]
  | p :: rest => if p.1 = k then (k, v) :: rest else p :: dictUpsert k v rest

/-- Lookup in an association list (first entry whose key matches). -/
def alookup {K V : Type} [DecidableEq K] (k : K) : List (K × V) → Option V
  | [] => none
  | p :: rest => if p.1 = k then some p.2 else alookup k rest

/-- The key column of an association list. -/
def pyDictKeys {K V : Type} (d : List (K × V)) : List K := d.map Prod.fst

/-- Python dict comprehension `{key v : v for v in l}`: an insertion-ordered
dict built by successive assignments. -/
def pyDict {K V : Type} [DecidableEq K] (key : V → K) (l : List V) : List (K × V) :=
  l.foldl (fun d v => dictUpsert (key v) v d) []

/-- `list({key v : v for v in l}.values())`: the values of the dict built by
`pyDict`, i.e. one record per key, last value wins, keys in first-occurrence
order. -/
def dedupBy {K V : Type} [DecidableEq K] (key : V → K) (l : List V) : List V :=
  (pyDict key l).map Prod.snd

/-- Request payloads: Python dicts from parameter names to JSON scalars. -/
abbrev Payload := List (String × Val)

/-- Entries of `query_time_log`: `{"request_id": ..., "query_timestamp": time.time()}`. -/
structure QueryLogEntry where
  request_id : Option Val
  query_timestamp : ℚ
deriving DecidableEq, Repr, Inhabited

/-- The parsed JSON body of a 200 response: `request_id`, the optional
`next_url` continuation cursor, and the kind-specific `results` payload `α`. -/
structure PageBody (α : Type) where
  request_id : Option Val
  next_url : Option String
  data : α
deriving DecidableEq, Repr

/-- One scripted upstream response: HTTP status, body, and the wall-clock
time (`time.time()`) at which the engine would log it. -/
structure UpResponse (α : Type) where
  status : Nat
  body : PageBody α
  time : ℚ
deriving DecidableEq, Repr

/-- Mutable state of one `PolygonPaginator` instance (`__init__`):
`query_count`, `query_time_log`, `results` (raw pages) and `clean_results`
(normalized records of the kind-specific type `γ`). -/
structure PagState (α γ : Type) where
  query_count : Nat
  query_time_log : List QueryLogEntry
  results : List (PageBody α)
  clean_results : List γ
deriving DecidableEq, Repr

/-- The freshly constructed state (`__init__`). -/
def PagState.init {α γ : Type} : PagState α γ := ⟨0, [], [], []⟩

/-- Record of one issued HTTP request: the URL and payload it was sent with,
the `overload` flag of the enclosing `query_all` invocation, the sleep the
throttle performed before issuing it (`none` when no sleep occurred),
`query_count` on entry to the invocation and after the post-response
increment, and the scripted response it received. -/
structure TraceEntry (α : Type) where
  url : String
  payload : Payload
  overload : Bool
  sleep : Option Int
  count_before : Nat
  count_after : Nat
  response : UpResponse α
deriving DecidableEq, Repr

/-- How a `query_all` chain ended: normal return, a raised HTTP error
(`response.raise_for_status()`), or exhaustion of the finite response
script (an artifact of the finite model, not a program behaviour). -/
inductive Outcome where
  | done
  | httpError (status : Nat)
  | scriptEnded
deriving DecidableEq, Repr

/-- Result of running `query_all` against a response script: final state,
outcome, the trace of issued requests, and the unconsumed responses. -/
structure QueryAllOut (α γ : Type) where
  state : PagState α γ
  outcome : Outcome
  trace : List (TraceEntry α)
  rest : List (UpResponse α)
deriving DecidableEq, Repr

namespace PolygonPaginator

/-- `MAX_QUERY_PER_MINUTE = 4` — free api limits to 5 / min which is 4 when
indexed at 0. -/
def MAX_QUERY_PER_MINUTE : Nat := 4

/-- `polygon_api = "https://api.polygon.io"`. -/
def polygon_api : String := "https://api.polygon.io"

/-- Modelled from the spec: `timestamp_to_datetime` lives in the
repository's `utils` module, which is missing from the sources.  Per the
spec the governor computes `seconds_between(oldest_log_entry,
newest_log_entry)`, so we model a datetime by its epoch-seconds value; the
difference of two converted datetimes in seconds is then the difference of
the raw timestamps. -/
def timestamp_to_datetime (ts : ℚ) : ℚ := ts

/-- `PolygonPaginator._api_sleep_time`: 60 seconds by default; when the log
holds more than two entries, the ceiling of the seconds between the oldest
(`query_time_log[0]`) and newest (`query_time_log[-1]`) entries, capped at
60. -/
def api_sleep_time (query_time_log : List QueryLogEntry) : Int :=
  let sleep_time : Int := 60
  if 2 < query_time_log.length then
    let a := timestamp_to_datetime (query_time_log.headD default).query_timestamp
    let b := timestamp_to_datetime (query_time_log.getLastD default).query_timestamp
    let diff : Int := ⌈b - a⌉
    if diff < sleep_time then diff else sleep_time
  else sleep_time

/-- The throttle block at the top of `query_all`: when the quota is spent
(`query_count >= MAX_QUERY_PER_MINUTE`) or `overload` is set, sleep for
`_api_sleep_time()` seconds, reset `query_count` to 0 and clear
`query_time_log`.  Returns the sleep performed (if any) and the state the
request is then issued from. -/
def throttle {α γ : Type} (st : PagState α γ) (overload : Bool) : Option Int × PagState α γ :=
  if MAX_QUERY_PER_MINUTE ≤ st.query_count ∨ overload = true then
    (some (api_sleep_time st.query_time_log),
      { st with query_count := 0, query_time_log := [] })
  else (none, st)

/-- `payload["apiKey"] = POLYGON_API_KEY`: the credential is injected into
the payload on every invocation. -/
def reqPayload (key : String) (payload : Payload) : Payload :=
  dictUpsert ("apiKey") (Val.vstr key) payload

/-- State after the throttle block and the `query_count += 1` performed on
receipt of the response. -/
def stAfterReq {α γ : Type} (st : PagState α γ) (overload : Bool) : PagState α γ :=
  { (throttle st overload).2 with query_count := (throttle st overload).2.query_count + 1 }

/-- State after handling a 200 response: the log gains
`{"request_id": ..., "query_timestamp": ...}` and `results` gains the page
body. -/
def stAfter200 {α γ : Type} (st : PagState α γ) (overload : Bool) (resp : UpResponse α) :
    PagState α γ :=
  { stAfterReq st overload with
    query_time_log :=
      (stAfterReq st overload).query_time_log ++ [⟨resp.body.request_id, resp.time⟩],
    results := (stAfterReq st overload).results ++ [resp.body] }

/-- The trace entry for the request issued by one invocation of `query_all`. -/
def mkTrace {α γ : Type} (key url : String) (payload : Payload) (overload : Bool)
    (st : PagState α γ) (resp : UpResponse α) : TraceEntry α :=
  ⟨url, reqPayload key payload, overload, (throttle st overload).1,
    st.query_count, (stAfterReq (γ := γ) st overload).query_count, resp⟩

/-- Prepend a trace entry to the output of a recursive continuation. -/
def consOut {α γ : Type} (e : TraceEntry α) (o : QueryAllOut α γ) : QueryAllOut α γ :=
  ⟨o.state, o.outcome, e :: o.trace, o.rest⟩

/-- `PolygonPaginator.query_all(url, payload, overload)`, run against a
finite script of upstream responses (one consumed per issued request; an
empty script ends the run with the artificial `scriptEnded` outcome).
Mirrors the source: inject the credential; sleep/reset when throttled;
issue the request; `query_count += 1`; on 200 log the request id and
timestamp, store the page, and recurse on `next_url` (with the empty
default payload) when present; on 429 retry the same URL and payload with
`overload=True`; on any other status call `response.raise_for_status()`,
which raises — carrying the status — only for statuses at least 400, and
otherwise returns normally without storing the page or logging. -/
def query_all {α γ : Type} (key : String) :
    List (UpResponse α) → PagState α γ → String → Payload → Bool → QueryAllOut α γ
  | [], st, _, _, _ => ⟨st, Outcome.scriptEnded, [], []⟩
  | resp :: rest, st, url, payload, overload =>
    if resp.status = 200 then
      match resp.body.next_url with
      | some nu =>
        consOut (mkTrace key url payload overload st resp)
          (query_all key rest (stAfter200 st overload resp) nu [] false)
      | none =>
        ⟨stAfter200 st overload resp, Outcome.done,
          [mkTrace key url payload overload st resp], rest⟩
    else if resp.status = 429 then
      consOut (mkTrace key url payload overload st resp)
        (query_all key rest (stAfterReq st overload) url (reqPayload key payload) true)
    else if 400 ≤ resp.status then
      ⟨stAfterReq st overload, Outcome.httpError resp.status,
        [mkTrace key url payload overload st resp], rest⟩
    else
      ⟨stAfterReq st overload, Outcome.done,
        [mkTrace key url payload overload st resp], rest⟩

/-- Python `round` (banker's rounding, round-half-to-even) on a rational. -/
def pyRound (q : ℚ) : Int :=
  let f : Int := ⌊q⌋
  if q - f < 1 / 2 then f
  else if (1 : ℚ) / 2 < q - f then f + 1
  else if f % 2 = 0 then f else f + 1

/-- `clean_results[i : i + batch_size]` slices of length `bsPred + 1`
(consecutive, last possibly shorter), as produced by
`range(0, len(clean_results), batch_size)`. -/
def pySlices {γ : Type} (bsPred : Nat) : List γ → List (List γ)
  | [] => []
  | x :: xs => ((x :: xs).take (bsPred + 1)) :: pySlices bsPred (xs.drop bsPred)
termination_by l => l.length
decreasing_by simp_wf; have := List.length_drop bsPred xs; omega

/-- `PolygonPaginator.make_clean_generator`: `record_size` is
`len(self.clean_results[0])` — for the dict records produced by
`clean_data` this is the number of keys, supplied here as `recLen`;
`batch_size = round(60000 / record_size)`; the generator yields consecutive
slices of that length.  Consuming the generator raises `IndexError` when
`clean_results` is empty (`clean_results[0]`), `ZeroDivisionError` when the
first record is empty, and `ValueError` when `batch_size` comes out 0
(`range` step must not be zero). -/
def make_clean_generator {γ : Type} (recLen : γ → Nat) (clean_results : List γ) :
    Except String (List (List γ)) :=
  match clean_results with
  | [] => Except.error ("IndexError: list index out of range")
  | r :: _ =>
    let record_size := recLen r
    if record_size = 0 then Except.error ("ZeroDivisionError: division by zero")
    else
      let batch_size : Int := pyRound ((60000 : ℚ) / record_size)
      if batch_size.toNat = 0 then
        Except.error ("ValueError: range() arg 3 must not be zero")
      else Except.ok (pySlices (batch_size.toNat - 1) clean_results)

end PolygonPaginator

/-- Raw ticker record as read by `StockMetaData.clean_data`: the values of
the nine selected keys (`ticker.get(x)`, `none` when absent). -/
structure RawTickerRec where
  ticker : Option Val
  name : Option Val
  type : Option Val
  active : Option Val
  market : Option Val
  locale : Option Val
  primary_exchange : Option Val
  currency_name : Option Val
  cik : Option Val
deriving DecidableEq, Repr

/-- Normalized ticker-metadata record: the dict
`{x: ticker.get(x) for x in selected_keys}` (nine keys). -/
structure TickerMetadataRec where
  ticker : Option Val
  name : Option Val
  type : Option Val
  active : Option Val
  market : Option Val
  locale : Option Val
  primary_exchange : Option Val
  currency_name : Option Val
  cik : Option Val
deriving DecidableEq, Repr

/-- Raw aggregate-bar record as read by `HistoricalStockPrices.clean_data`:
the values of the nine keys of `key_mapping` (`record.get(key)`). -/
structure RawBarRec where
  v : Option Val
  vw : Option Val
  c : Option Val
  o : Option Val
  h : Option Val
  l : Option Val
  t : Option Val
  n : Option Val
  otc : Option Val
deriving DecidableEq, Repr

/-- Normalized price-bar record: the remapped dict plus the injected
`ticker_id` foreign key (ten keys). -/
structure PriceBarRec where
  volume : Option Val
  volume_weight_price : Option Val
  close_price : Option Val
  open_price : Option Val
  high_price : Option Val
  low_price : Option Val
  as_of_date : Option Val
  number_of_transactions : Option Val
  otc : Option Val
  ticker_id : Int
deriving DecidableEq, Repr

/-- Raw option-contract record as read by `OptionsContracts.clean_data`:
the values of the eight keys of `key_mapping` (`record.get(key)`). -/
structure RawContractRec where
  ticker : Option Val
  expiration_date : Option Val
  strike_price : Option Val
  contract_type : Option Val
  shares_per_contract : Option Val
  primary_exchange : Option Val
  exercise_style : Option Val
  cfi : Option Val
deriving DecidableEq, Repr

/-- Normalized option-contract record: the remapped dict plus the injected
`underlying_ticker_id` foreign key (nine keys); `option_ticker` is the
natural key. -/
structure OptionContractRec where
  option_ticker : Option Val
  expiration_date : Option Val
  strike_price : Option Val
  contract_type : Option Val
  shares_per_contract : Option Val
  primary_exchange : Option Val
  exercise_style : Option Val
  cfi : Option Val
  underlying_ticker_id : Int
deriving DecidableEq, Repr

/-- `len(...)` of a normalized ticker-metadata dict: nine keys. -/
def tickerRecLen (_ : TickerMetadataRec) : Nat := 9

/-- `len(...)` of a normalized price-bar dict: ten keys. -/
def priceBarRecLen (_ : PriceBarRec) : Nat := 10

/-- `len(...)` of a normalized option-contract dict: nine keys. -/
def contractRecLen (_ : OptionContractRec) : Nat := 9

namespace StockMetaData

/-- The dict `{x: ticker.get(x) for x in selected_keys}`. -/
def cleanRec (r : RawTickerRec) : TickerMetadataRec :=
  ⟨r.ticker, r.name, r.type, r.active, r.market, r.locale, r.primary_exchange,
    r.currency_name, r.cik⟩

/-- `StockMetaData.clean_data`: for every page in `results`, for every
record in the page's `results` list, append the selected-key dict to
`clean_results`. -/
def clean_data (results : List (PageBody (List RawTickerRec)))
    (clean_results : List TickerMetadataRec) : List TickerMetadataRec :=
  results.foldl
    (fun acc page => page.data.foldl (fun acc2 r => acc2 ++ [cleanRec r]) acc)
    clean_results

/-- `self.payload` after `query_data`'s optional single-ticker filter:
`{"active": True, "market": "stocks", "limit": 1000}`, plus
`payload["ticker"] = self.ticker` when not in all-tickers mode. -/
def payload0 (ticker : String) (all_ : Bool) : Payload :=
  let p : Payload :=
    [(("active"), Val.vbool true), (("market"), Val.vstr ("stocks")),
      (("limit"), Val.vint 1000)]
  if all_ then p else dictUpsert ("ticker") (Val.vstr ticker) p

/-- The endpoint of `StockMetaData.query_data`. -/
def url : String := PolygonPaginator.polygon_api ++ ("/v3/reference/tickers")

/-- `StockMetaData.query_data`: one `query_all` chain against the tickers
endpoint. -/
def query_data (key ticker : String) (all_ : Bool)
    (script : List (UpResponse (List RawTickerRec)))
    (st : PagState (List RawTickerRec) TickerMetadataRec) :
    QueryAllOut (List RawTickerRec) TickerMetadataRec :=
  PolygonPaginator.query_all key script st url (payload0 ticker all_) false

end StockMetaData

namespace HistoricalStockPrices

/-- Modelled from the spec: `timestamp_to_datetime(..., msec_units=True)`
lives in the repository's missing `utils` module; per the spec it converts
a millisecond epoch timestamp to a calendar date.  We represent the date as
`Val.vdate` carrying the epoch day number. -/
def timestamp_to_datetime_msec (v : Option Val) : Option Val :=
  match v with
  | some (Val.vint ms) => some (Val.vdate (ms / 86400000))
  | x => x

/-- The remapped dict of `HistoricalStockPrices.clean_data` for one record,
with the `as_of_date` conversion and the injected `ticker_id`. -/
def cleanRec (ticker_id : Int) (r : RawBarRec) : PriceBarRec :=
  ⟨r.v, r.vw, r.c, r.o, r.h, r.l, timestamp_to_datetime_msec r.t, r.n, r.otc, ticker_id⟩

/-- `HistoricalStockPrices.clean_data`: for every page, for every record of
`page.get("results")`, append the normalized record to `clean_results`. -/
def clean_data (ticker_id : Int) (results : List (PageBody (List RawBarRec)))
    (clean_results : List PriceBarRec) : List PriceBarRec :=
  results.foldl
    (fun acc page => page.data.foldl (fun acc2 r => acc2 ++ [cleanRec ticker_id r]) acc)
    clean_results

end HistoricalStockPrices

namespace OptionsContracts

/-- The remapped dict of `OptionsContracts.clean_data` for one record, with
the injected `underlying_ticker_id`. -/
def cleanRec (ticker_id : Int) (r : RawContractRec) : OptionContractRec :=
  ⟨r.ticker, r.expiration_date, r.strike_price, r.contract_type,
    r.shares_per_contract, r.primary_exchange, r.exercise_style, r.cfi, ticker_id⟩

/-- `list({v["option_ticker"]: v for v in clean_results}.values())`. -/
def dedup (l : List OptionContractRec) : List OptionContractRec :=
  dedupBy (fun v => v.option_ticker) l

/-- `OptionsContracts.clean_data`: for every page, for every record, append
the normalized record and immediately rebuild `clean_results` as the values
of the dict keyed by `option_ticker` (insertion-ordered, last value wins). -/
def clean_data (ticker_id : Int) (results : List (PageBody (List RawContractRec)))
    (clean_results : List OptionContractRec) : List OptionContractRec :=
  results.foldl
    (fun acc page =>
      page.data.foldl (fun acc2 r => dedup (acc2 ++ [cleanRec ticker_id r])) acc)
    clean_results

/-- All normalized records of the accumulated pages, in processing order,
before deduplication. -/
def allRecs (ticker_id : Int) (results : List (PageBody (List RawContractRec))) :
    List OptionContractRec :=
  ((results.map PageBody.data).flatten).map (cleanRec ticker_id)

/-- Zeller's congruence for the Gregorian calendar: 0 = Saturday,
1 = Sunday, 2 = Monday, ..., 6 = Friday. -/
def zeller (year month day : Nat) : Nat :=
  let y := if month ≤ 2 then year - 1 else year
  let m := if month ≤ 2 then month + 12 else month
  (day + (13 * (m + 1)) / 5 + y % 100 + (y % 100) / 4 + (y / 100) / 4 + 5 * (y / 100)) % 7

/-- A weekday (Monday through Friday). -/
def isBusinessDay (year month day : Nat) : Bool :=
  zeller year month day ≠ 0 && zeller year month day ≠ 1

/-- The day-of-month of the first weekday of the given month: the 1st
unless it falls on a weekend (Sunday the 1st → Monday the 2nd, Saturday the
1st → Monday the 3rd). -/
def firstWeekdayDay (year month : Nat) : Nat :=
  if isBusinessDay year month 1 then 1
  else if isBusinessDay year month 2 then 2 else 3

/-- Decimal value of a list of digit characters (the year and month
components of a `YYYY-MM` anchor string). -/
def parseNatDigits (cs : List Char) : Nat :=
  cs.foldl (fun acc c => 10 * acc + (c.toNat - 48)) 0

/-- Modelled from the spec: `first_weekday_of_month` lives in the
repository's missing `utils` module; per the spec it maps each year-month
anchor to its first business day via a vectorized calendar lookup.  We
model a business day as a weekday (Monday through Friday, Zeller's
congruence) and render the result in the `YYYY-MM-DD` form the source's
numpy datetime array stringifies to. -/
def first_weekday_of_month (ym : String) : String :=
  let year := parseNatDigits (ym.data.take 4)
  let month := parseNatDigits ((ym.data.drop 5).take 2)
  let d := firstWeekdayDay year month
  ym ++ ("-") ++ (if d < 10 then ("0") ++ toString d else toString d)

/-- The year-month string built by `_determine_base_dates`:
`str(year) + "-" + str(month)` when `len(str(month)) > 1`, zero-padded
otherwise. -/
def ymStr (year month : Nat) : String :=
  if 1 < (toString month).length then toString year ++ ("-") ++ toString month
  else toString year ++ ("-0") ++ toString month

/-- The `while counter <= months_hist` loop of `_determine_base_dates`,
with `iters` iterations left (the loop runs `months_hist + 1` times):
append the current year-month, then step one month back, wrapping
January to December of the previous year. -/
def year_month_array (year month : Nat) : Nat → List String
  | 0 => []
  | Nat.succ iters =>
    ymStr year month ::
      (if month = 1 then year_month_array (year - 1) 12 iters
        else year_month_array year (month - 1) iters)

/-- `OptionsContracts._determine_base_dates`, with `datetime.now()`'s year
and month supplied as arguments: walk backward `months_hist + 1` months
from the current month, then map every anchor to its first business day. -/
def determine_base_dates (year month months_hist : Nat) : List String :=
  (year_month_array year month (months_hist + 1)).map first_weekday_of_month

end OptionsContracts

/-- Outcome of `PolygonPaginator.fetch`: the state after the run, the
outcome of the query chain, and (when the chain succeeded) the batch
generator built over the normalized records. -/
structure FetchOut (α γ : Type) where
  state : PagState α γ
  outcome : Outcome
  generator : Option (Except String (List (List γ)))
deriving Repr

/-- `PolygonPaginator.fetch`: run `query_data`, and only when it returned
normally run `clean_data` and materialize `make_clean_generator`; any
raised error propagates unmodified and the later stages do not run. -/
def fetchRun {α γ : Type} (out : QueryAllOut α γ)
    (cleanFn : PagState α γ → PagState α γ) (recLen : γ → Nat) : FetchOut α γ :=
  match out.outcome with
  | Outcome.done =>
    let st2 := cleanFn out.state
    ⟨st2, Outcome.done,
      some (PolygonPaginator.make_clean_generator recLen st2.clean_results)⟩
  | o => ⟨out.state, o, none⟩

namespace PolygonPaginator

variable {α γ : Type}

@[simp] theorem consOut_state (e : TraceEntry α) (o : QueryAllOut α γ) :
    (consOut e o).state = o.state := rfl

@[simp] theorem consOut_outcome (e : TraceEntry α) (o : QueryAllOut α γ) :
    (consOut e o).outcome = o.outcome := rfl

@[simp] theorem consOut_trace (e : TraceEntry α) (o : QueryAllOut α γ) :
    (consOut e o).trace = e :: o.trace := rfl

@[simp] theorem mkTrace_response (key url : String) (payload : Payload) (ov : Bool)
    (st : PagState α γ) (resp : UpResponse α) :
    (mkTrace key url payload ov st resp).response = resp := rfl

@[simp] theorem mkTrace_url (key url : String) (payload : Payload) (ov : Bool)
    (st : PagState α γ) (resp : UpResponse α) :
    (mkTrace key url payload ov st resp).url = url := rfl

@[simp] theorem mkTrace_payload (key url : String) (payload : Payload) (ov : Bool)
    (st : PagState α γ) (resp : UpResponse α) :
    (mkTrace key url payload ov st resp).payload = reqPayload key payload := rfl

@[simp] theorem mkTrace_overload (key url : String) (payload : Payload) (ov : Bool)
    (st : PagState α γ) (resp : UpResponse α) :
    (mkTrace key url payload ov st resp).overload = ov := rfl

@[simp] theorem mkTrace_sleep (key url : String) (payload : Payload) (ov : Bool)
    (st : PagState α γ) (resp : UpResponse α) :
    (mkTrace key url payload ov st resp).sleep = (throttle st ov).1 := rfl

@[simp] theorem mkTrace_count_before (key url : String) (payload : Payload) (ov : Bool)
    (st : PagState α γ) (resp : UpResponse α) :
    (mkTrace key url payload ov st resp).count_before = st.query_count := rfl

@[simp] theorem mkTrace_count_after (key url : String) (payload : Payload) (ov : Bool)
    (st : PagState α γ) (resp : UpResponse α) :
    (mkTrace key url payload ov st resp).count_after =
      (stAfterReq (γ := γ) st ov).query_count := rfl

theorem throttle_fst (st : PagState α γ) (ov : Bool) :
    (throttle st ov).1 =
      if MAX_QUERY_PER_MINUTE ≤ st.query_count ∨ ov = true then
        some (api_sleep_time st.query_time_log)
      else none := by
  unfold throttle; split <;> rfl

theorem throttle_fst_isSome (st : PagState α γ) (ov : Bool) :
    (throttle st ov).1.isSome = true ↔
      (MAX_QUERY_PER_MINUTE ≤ st.query_count ∨ ov = true) := by
  rw [throttle_fst]; split <;> simp_all

@[simp] theorem throttle_results (st : PagState α γ) (ov : Bool) :
    ((throttle st ov).2).results = st.results := by
  unfold throttle; split <;> rfl

@[simp] theorem throttle_clean (st : PagState α γ) (ov : Bool) :
    ((throttle st ov).2).clean_results = st.clean_results := by
  unfold throttle; split <;> rfl

theorem throttle_count (st : PagState α γ) (ov : Bool) :
    ((throttle st ov).2).query_count =
      if MAX_QUERY_PER_MINUTE ≤ st.query_count ∨ ov = true then 0
      else st.query_count := by
  unfold throttle; split <;> rfl

theorem throttle_log (st : PagState α γ) (ov : Bool) :
    ((throttle st ov).2).query_time_log =
      if MAX_QUERY_PER_MINUTE ≤ st.query_count ∨ ov = true then []
      else st.query_time_log := by
  unfold throttle; split <;> rfl

@[simp] theorem stAfterReq_results (st : PagState α γ) (ov : Bool) :
    (stAfterReq st ov).results = st.results := by
  unfold stAfterReq; simp

@[simp] theorem stAfterReq_clean (st : PagState α γ) (ov : Bool) :
    (stAfterReq st ov).clean_results = st.clean_results := by
  unfold stAfterReq; simp

@[simp] theorem stAfterReq_count (st : PagState α γ) (ov : Bool) :
    (stAfterReq st ov).query_count = ((throttle st ov).2).query_count + 1 := rfl

@[simp] theorem stAfterReq_log (st : PagState α γ) (ov : Bool) :
    (stAfterReq st ov).query_time_log = ((throttle st ov).2).query_time_log := rfl

@[simp] theorem stAfter200_results (st : PagState α γ) (ov : Bool) (resp : UpResponse α) :
    (stAfter200 st ov resp).results = st.results ++ [resp.body] := by
  unfold stAfter200; simp

@[simp] theorem stAfter200_clean (st : PagState α γ) (ov : Bool) (resp : UpResponse α) :
    (stAfter200 st ov resp).clean_results = st.clean_results := by
  unfold stAfter200; simp

@[simp] theorem stAfter200_count (st : PagState α γ) (ov : Bool) (resp : UpResponse α) :
    (stAfter200 st ov resp).query_count = ((throttle st ov).2).query_count + 1 := rfl

@[simp] theorem stAfter200_log (st : PagState α γ) (ov : Bool) (resp : UpResponse α) :
    (stAfter200 st ov resp).query_time_log =
      ((throttle st ov).2).query_time_log ++ [⟨resp.body.request_id, resp.time⟩] := rfl

theorem query_all_nil (key : String) (st : PagState α γ) (url : String)
    (payload : Payload) (ov : Bool) :
    query_all key ([] : List (UpResponse α)) st url payload ov =
      ⟨st, Outcome.scriptEnded, [], []⟩ := rfl

theorem query_all_200_some {resp : UpResponse α} {nu : String} (key : String)
    (rest : List (UpResponse α)) (st : PagState α γ) (url : String) (payload : Payload)
    (ov : Bool) (h200 : resp.status = 200) (hnu : resp.body.next_url = some nu) :
    query_all key (resp :: rest) st url payload ov =
      consOut (mkTrace key url payload ov st resp)
        (query_all key rest (stAfter200 st ov resp) nu [] false) := by
  simp [query_all, h200, hnu]

theorem query_all_200_none {resp : UpResponse α} (key : String)
    (rest : List (UpResponse α)) (st : PagState α γ) (url : String) (payload : Payload)
    (ov : Bool) (h200 : resp.status = 200) (hnu : resp.body.next_url = none) :
    query_all key (resp :: rest) st url payload ov =
      ⟨stAfter200 st ov resp, Outcome.done, [mkTrace key url payload ov st resp], rest⟩ := by
  simp [query_all, h200, hnu]

theorem query_all_429 {resp : UpResponse α} (key : String)
    (rest : List (UpResponse α)) (st : PagState α γ) (url : String) (payload : Payload)
    (ov : Bool) (h200 : ¬resp.status = 200) (h429 : resp.status = 429) :
    query_all key (resp :: rest) st url payload ov =
      consOut (mkTrace key url payload ov st resp)
        (query_all key rest (stAfterReq st ov) url (reqPayload key payload) true) := by
  simp [query_all, h200, h429]

theorem query_all_err {resp : UpResponse α} (key : String)
    (rest : List (UpResponse α)) (st : PagState α γ) (url : String) (payload : Payload)
    (ov : Bool) (h200 : ¬resp.status = 200) (h429 : ¬resp.status = 429)
    (h400 : 400 ≤ resp.status) :
    query_all key (resp :: rest) st url payload ov =
      ⟨stAfterReq st ov, Outcome.httpError resp.status,
        [mkTrace key url payload ov st resp], rest⟩ := by
  simp [query_all, h200, h429, h400]

theorem query_all_ok_other {resp : UpResponse α} (key : String)
    (rest : List (UpResponse α)) (st : PagState α γ) (url : String) (payload : Payload)
    (ov : Bool) (h200 : ¬resp.status = 200) (h429 : ¬resp.status = 429)
    (h400 : ¬400 ≤ resp.status) :
    query_all key (resp :: rest) st url payload ov =
      ⟨stAfterReq st ov, Outcome.done,
        [mkTrace key url payload ov st resp], rest⟩ := by
  simp [query_all, h200, h429, h400]

/-- Python dict assignment is idempotent: setting the same key to the same
value twice equals setting it once. -/
theorem dictUpsert_idem {K V : Type} [DecidableEq K] (k : K) (v : V) (d : List (K × V)) :
    dictUpsert k v (dictUpsert k v d) = dictUpsert k v d := by
  induction d with
  | nil => simp [dictUpsert]
  | cons p rest ih =>
    by_cases h : p.1 = k
    · simp [dictUpsert, h]
    · simp [dictUpsert, h, ih]

theorem reqPayload_idem (key : String) (payload : Payload) :
    reqPayload key (reqPayload key payload) = reqPayload key payload :=
  dictUpsert_idem _ _ _

/-- The responses recorded in the trace are exactly the consumed prefix of
the response script, in request order. -/
theorem query_all_trace_responses (key : String) (script : List (UpResponse α)) :
    ∀ (st : PagState α γ) (url : String) (payload : Payload) (ov : Bool),
      ((query_all key script st url payload ov).trace.map TraceEntry.response) =
        script.take (query_all key script st url payload ov).trace.length := by
  induction script with
  | nil => intro st url payload ov; simp [query_all_nil]
  | cons resp rest ih =>
    intro st url payload ov
    by_cases h200 : resp.status = 200
    · cases hnu : resp.body.next_url with
      | some nu =>
        rw [query_all_200_some key rest st url payload ov h200 hnu]
        simp only [consOut_trace, List.map_cons, List.length_cons, List.take_succ_cons,
          mkTrace_response]
        rw [ih]
      | none =>
        rw [query_all_200_none key rest st url payload ov h200 hnu]
        simp
    · by_cases h429 : resp.status = 429
      · rw [query_all_429 key rest st url payload ov h200 h429]
        simp only [consOut_trace, List.map_cons, List.length_cons, List.take_succ_cons,
          mkTrace_response]
        rw [ih]
      · by_cases h400 : 400 ≤ resp.status
        · rw [query_all_err key rest st url payload ov h200 h429 h400]
          simp
        · rw [query_all_ok_other key rest st url payload ov h200 h429 h400]
          simp

/-- `results` after a run is the initial `results` plus the body of every
200 response in the trace, one entry per 200 response, in request order. -/
theorem query_all_results (key : String) (script : List (UpResponse α)) :
    ∀ (st : PagState α γ) (url : String) (payload : Payload) (ov : Bool),
      (query_all key script st url payload ov).state.results =
        st.results ++
          (((query_all key script st url payload ov).trace.filter
              (fun e => e.response.status = 200)).map (fun e => e.response.body)) := by
  induction script with
  | nil => intro st url payload ov; simp [query_all_nil]
  | cons resp rest ih =>
    intro st url payload ov
    by_cases h200 : resp.status = 200
    · cases hnu : resp.body.next_url with
      | some nu =>
        rw [query_all_200_some key rest st url payload ov h200 hnu]
        simp only [consOut_state, consOut_trace]
        rw [ih]
        simp [List.filter_cons, h200]
      | none =>
        rw [query_all_200_none key rest st url payload ov h200 hnu]
        simp [h200]
    · by_cases h429 : resp.status = 429
      · rw [query_all_429 key rest st url payload ov h200 h429]
        simp only [consOut_state, consOut_trace]
        rw [ih]
        simp [List.filter_cons, h200]
      · by_cases h400 : 400 ≤ resp.status
        · rw [query_all_err key rest st url payload ov h200 h429 h400]
          simp [h200]
        · rw [query_all_ok_other key rest st url payload ov h200 h429 h400]
          simp [h200]

/-- Replay of the `query_time_log` evolution along one trace entry: a sleep
clears the log, and only a 200 response appends an entry. -/
def logStep (acc : List QueryLogEntry) (e : TraceEntry α) : List QueryLogEntry :=
  let acc2 := if e.sleep.isSome then [] else acc
  if e.response.status = 200 then
    acc2 ++ [⟨e.response.body.request_id, e.response.time⟩]
  else acc2

/-- Evaluation of `logStep` at the entry built by one invocation. -/
theorem logStep_mkTrace (key url : String) (payload : Payload) (ov : Bool)
    (st : PagState α γ) (resp : UpResponse α) :
    logStep st.query_time_log (mkTrace (γ := γ) key url payload ov st resp) =
      (if resp.status = 200 then
        ((throttle (γ := γ) st ov).2).query_time_log ++
          [⟨resp.body.request_id, resp.time⟩]
      else ((throttle (γ := γ) st ov).2).query_time_log) := by
  unfold logStep
  rw [mkTrace_sleep, mkTrace_response, throttle_fst, throttle_log]
  by_cases h : MAX_QUERY_PER_MINUTE ≤ st.query_count ∨ ov = true
  · simp [h]
  · simp [h]

theorem query_all_log (key : String) (script : List (UpResponse α)) :
    ∀ (st : PagState α γ) (url : String) (payload : Payload) (ov : Bool),
      (query_all key script st url payload ov).state.query_time_log =
        (query_all key script st url payload ov).trace.foldl logStep
          st.query_time_log := by
  induction script with
  | nil => intro st url payload ov; simp [query_all_nil]
  | cons resp rest ih =>
    intro st url payload ov
    by_cases h200 : resp.status = 200
    · cases hnu : resp.body.next_url with
      | some nu =>
        rw [query_all_200_some key rest st url payload ov h200 hnu]
        simp only [consOut_state, consOut_trace, List.foldl_cons]
        rw [logStep_mkTrace, if_pos h200, ih]
        simp
      | none =>
        rw [query_all_200_none key rest st url payload ov h200 hnu]
        simp only [List.foldl_cons, List.foldl_nil]
        rw [logStep_mkTrace, if_pos h200]
        simp
    · by_cases h429 : resp.status = 429
      · rw [query_all_429 key rest st url payload ov h200 h429]
        simp only [consOut_state, consOut_trace, List.foldl_cons]
        rw [logStep_mkTrace, if_neg h200, ih]
        simp
      · by_cases h400 : 400 ≤ resp.status
        · rw [query_all_err key rest st url payload ov h200 h429 h400]
          simp only [List.foldl_cons, List.foldl_nil]
          rw [logStep_mkTrace, if_neg h200]
          simp
        · rw [query_all_ok_other key rest st url payload ov h200 h429 h400]
          simp only [List.foldl_cons, List.foldl_nil]
          rw [logStep_mkTrace, if_neg h200]
          simp

/-- The head of the trace is the entry of the outermost invocation: issued
to the given URL with the credential-injected payload, under the given
`overload` flag, after the sleep the throttle decided from the entry
state. -/
theorem query_all_trace_head (key : String) (script : List (UpResponse α))
    (st : PagState α γ) (url : String) (payload : Payload) (ov : Bool) :
    (query_all key script st url payload ov).trace.head? =
      script.head?.map (fun resp => mkTrace (γ := γ) key url payload ov st resp) := by
  cases script with
  | nil => simp [query_all_nil]
  | cons resp rest =>
    by_cases h200 : resp.status = 200
    · cases hnu : resp.body.next_url with
      | some nu => rw [query_all_200_some key rest st url payload ov h200 hnu]; simp
      | none => rw [query_all_200_none key rest st url payload ov h200 hnu]; simp
    · by_cases h429 : resp.status = 429
      · rw [query_all_429 key rest st url payload ov h200 h429]; simp
      · by_cases h400 : 400 ≤ resp.status
        · rw [query_all_err key rest st url payload ov h200 h429 h400]; simp
        · rw [query_all_ok_other key rest st url payload ov h200 h429 h400]; simp

/-- At every trace entry, `query_count` right after the response is one
more than its value when the request was issued (0 if the throttle reset
it, the entry value otherwise) — one increment per response, regardless of
status. -/
theorem mkTrace_count_eq (key url : String) (payload : Payload) (ov : Bool)
    (st : PagState α γ) (resp : UpResponse α) :
    (mkTrace (γ := γ) key url payload ov st resp).count_after =
      (if (mkTrace (γ := γ) key url payload ov st resp).sleep.isSome then 0
        else (mkTrace (γ := γ) key url payload ov st resp).count_before) + 1 := by
  simp only [mkTrace_count_after, mkTrace_sleep, mkTrace_count_before, stAfterReq_count]
  rw [throttle_count, throttle_fst]
  by_cases h : MAX_QUERY_PER_MINUTE ≤ st.query_count ∨ ov = true <;> simp [h]

theorem query_all_count_incr (key : String) (script : List (UpResponse α)) :
    ∀ (st : PagState α γ) (url : String) (payload : Payload) (ov : Bool),
      ∀ e ∈ (query_all key script st url payload ov).trace,
        e.count_after = (if e.sleep.isSome then 0 else e.count_before) + 1 := by
  induction script with
  | nil => intro st url payload ov; simp [query_all_nil]
  | cons resp rest ih =>
    intro st url payload ov e he
    by_cases h200 : resp.status = 200
    · cases hnu : resp.body.next_url with
      | some nu =>
        rw [query_all_200_some key rest st url payload ov h200 hnu] at he
        rcases List.mem_cons.1 he with h | h
        · subst h; exact mkTrace_count_eq key url payload ov st resp
        · exact ih _ _ _ _ e h
      | none =>
        rw [query_all_200_none key rest st url payload ov h200 hnu] at he
        simp only [List.mem_singleton] at he
        subst he; exact mkTrace_count_eq key url payload ov st resp
    · by_cases h429 : resp.status = 429
      · rw [query_all_429 key rest st url payload ov h200 h429] at he
        rcases List.mem_cons.1 he with h | h
        · subst h; exact mkTrace_count_eq key url payload ov st resp
        · exact ih _ _ _ _ e h
      · by_cases h400 : 400 ≤ resp.status
        · rw [query_all_err key rest st url payload ov h200 h429 h400] at he
          simp only [List.mem_singleton] at he
          subst he; exact mkTrace_count_eq key url payload ov st resp
        · rw [query_all_ok_other key rest st url payload ov h200 h429 h400] at he
          simp only [List.mem_singleton] at he
          subst he; exact mkTrace_count_eq key url payload ov st resp

/-- When a chain raises, the raised status is that of the last consumed
response, it is at least 400 (so neither 200 nor 429), and the final
`query_count` is the count recorded right after that failing request. -/
theorem query_all_error_last (key : String) (script : List (UpResponse α)) :
    ∀ (st : PagState α γ) (url : String) (payload : Payload) (ov : Bool) (s : Nat),
      (query_all key script st url payload ov).outcome = Outcome.httpError s →
        ∃ e, (query_all key script st url payload ov).trace.getLast? = some e ∧
          e.response.status = s ∧ 400 ≤ s ∧ ¬s = 200 ∧ ¬s = 429 ∧
          (query_all key script st url payload ov).state.query_count = e.count_after := by
  induction script with
  | nil => intro st url payload ov s h; rw [query_all_nil] at h; cases h
  | cons resp rest ih =>
    intro st url payload ov s h
    by_cases h200 : resp.status = 200
    · cases hnu : resp.body.next_url with
      | some nu =>
        rw [query_all_200_some key rest st url payload ov h200 hnu] at h ⊢
        simp only [consOut_outcome] at h
        obtain ⟨e, hlast, hst, h4, h1, h2, hcnt⟩ := ih _ _ _ _ s h
        refine ⟨e, ?_, hst, h4, h1, h2, hcnt⟩
        rcases htr : (query_all key rest (stAfter200 st ov resp) nu [] false).trace with
          _ | ⟨x, t⟩
        · rw [htr] at hlast; cases hlast
        · rw [htr] at hlast
          simp only [consOut_trace, htr, List.getLast?_cons_cons]
          exact hlast
      | none =>
        rw [query_all_200_none key rest st url payload ov h200 hnu] at h
        cases h
    · by_cases h429 : resp.status = 429
      · rw [query_all_429 key rest st url payload ov h200 h429] at h ⊢
        simp only [consOut_outcome] at h
        obtain ⟨e, hlast, hst, h4, h1, h2, hcnt⟩ :=
          ih _ _ _ _ s h
        refine ⟨e, ?_, hst, h4, h1, h2, hcnt⟩
        rcases htr : (query_all key rest (stAfterReq st ov) url
            (reqPayload key payload) true).trace with _ | ⟨x, t⟩
        · rw [htr] at hlast; cases hlast
        · rw [htr] at hlast
          simp only [consOut_trace, htr, List.getLast?_cons_cons]
          exact hlast
      · by_cases h400 : 400 ≤ resp.status
        · rw [query_all_err key rest st url payload ov h200 h429 h400] at h ⊢
          cases h
          exact ⟨mkTrace key url payload ov st resp, rfl, rfl, h400, h200, h429, rfl⟩
        · rw [query_all_ok_other key rest st url payload ov h200 h429 h400] at h
          cases h

/-- A chain raises if and only if some consumed response has a status of at
least 400 other than 429 (`raise_for_status` raises only for 4xx/5xx). -/
theorem query_all_error_iff (key : String) (script : List (UpResponse α)) :
    ∀ (st : PagState α γ) (url : String) (payload : Payload) (ov : Bool),
      (∃ s, (query_all key script st url payload ov).outcome = Outcome.httpError s) ↔
        ∃ e ∈ (query_all key script st url payload ov).trace,
          400 ≤ e.response.status ∧ ¬e.response.status = 429 := by
  induction script with
  | nil =>
    intro st url payload ov
    rw [query_all_nil]
    simp
  | cons resp rest ih =>
    intro st url payload ov
    constructor
    · rintro ⟨s, hs⟩
      obtain ⟨e, hlast, hst, h4, h1, h2, -⟩ :=
        query_all_error_last key (resp :: rest) st url payload ov s hs
      obtain ⟨hne, he⟩ := List.mem_getLast?_eq_getLast hlast
      exact ⟨e, he ▸ List.getLast_mem hne, by rw [hst]; exact h4, by rw [hst]; exact h2⟩
    · rintro ⟨e, he, h1, h2⟩
      by_cases h200 : resp.status = 200
      · cases hnu : resp.body.next_url with
        | some nu =>
          rw [query_all_200_some key rest st url payload ov h200 hnu] at he ⊢
          rcases List.mem_cons.1 he with h | h
          · subst h; simp only [mkTrace_response] at h1; omega
          · simp only [consOut_outcome]
            exact (ih _ _ _ _).2 ⟨e, h, h1, h2⟩
        | none =>
          rw [query_all_200_none key rest st url payload ov h200 hnu] at he
          simp only [List.mem_singleton] at he
          subst he; simp only [mkTrace_response] at h1; omega
      · by_cases h429 : resp.status = 429
        · rw [query_all_429 key rest st url payload ov h200 h429] at he ⊢
          rcases List.mem_cons.1 he with h | h
          · subst h; simp only [mkTrace_response] at h2; exact absurd h429 h2
          · simp only [consOut_outcome]
            exact (ih _ _ _ _).2 ⟨e, h, h1, h2⟩
        · by_cases h400 : 400 ≤ resp.status
          · rw [query_all_err key rest st url payload ov h200 h429 h400]
            exact ⟨resp.status, rfl⟩
          · rw [query_all_ok_other key rest st url payload ov h200 h429 h400] at he
            simp only [List.mem_singleton] at he
            subst he; simp only [mkTrace_response] at h1; omega

/-- The request issued immediately after a 429 response reuses the same URL
and (credential-injected) payload and carries `overload = true`. -/
theorem query_all_429_retry (key : String) (script : List (UpResponse α)) :
    ∀ (st : PagState α γ) (url : String) (payload : Payload) (ov : Bool)
      (i : Nat) (e e' : TraceEntry α),
      (query_all key script st url payload ov).trace[i]? = some e →
      (query_all key script st url payload ov).trace[i + 1]? = some e' →
      e.response.status = 429 →
      e'.url = e.url ∧ e'.payload = e.payload ∧ e'.overload = true := by
  induction script with
  | nil =>
    intro st url payload ov i e e' h1 _ _
    rw [query_all_nil] at h1; cases h1
  | cons resp rest ih =>
    intro st url payload ov i e e' h1 h2 h429e
    by_cases h200 : resp.status = 200
    · cases hnu : resp.body.next_url with
      | some nu =>
        rw [query_all_200_some key rest st url payload ov h200 hnu] at h1 h2
        simp only [consOut_trace] at h1 h2
        cases i with
        | zero =>
          rw [List.getElem?_cons_zero] at h1
          cases h1
          simp only [mkTrace_response] at h429e
          omega
        | succ n =>
          rw [List.getElem?_cons_succ] at h1 h2
          exact ih _ _ _ _ n e e' h1 h2 h429e
      | none =>
        rw [query_all_200_none key rest st url payload ov h200 hnu] at h1 h2
        cases i with
        | zero => rw [List.getElem?_cons_succ] at h2; cases h2
        | succ n => rw [List.getElem?_cons_succ] at h1; cases h1
    · by_cases h429 : resp.status = 429
      · rw [query_all_429 key rest st url payload ov h200 h429] at h1 h2
        simp only [consOut_trace] at h1 h2
        cases i with
        | zero =>
          rw [List.getElem?_cons_zero] at h1
          cases h1
          rw [List.getElem?_cons_succ] at h2
          have hhd : (query_all key rest (stAfterReq st ov) url
              (reqPayload key payload) true).trace.head? = some e' := by
            cases htr : (query_all key rest (stAfterReq st ov) url
                (reqPayload key payload) true).trace with
            | nil => rw [htr] at h2; simp at h2
            | cons x t =>
              rw [htr] at h2
              rw [List.getElem?_cons_zero] at h2
              rw [List.head?_cons]
              exact h2
          rw [query_all_trace_head] at hhd
          cases hrest : rest.head? with
          | none => rw [hrest] at hhd; cases hhd
          | some r2 =>
            rw [hrest] at hhd
            simp only [Option.map_some'] at hhd
            cases hhd
            refine ⟨rfl, ?_, rfl⟩
            exact reqPayload_idem key payload
        | succ n =>
          rw [List.getElem?_cons_succ] at h1 h2
          exact ih _ _ _ _ n e e' h1 h2 h429e
      · by_cases h400 : 400 ≤ resp.status
        · rw [query_all_err key rest st url payload ov h200 h429 h400] at h1 h2
          cases i with
          | zero => rw [List.getElem?_cons_succ] at h2; cases h2
          | succ n => rw [List.getElem?_cons_succ] at h1; cases h1
        · rw [query_all_ok_other key rest st url payload ov h200 h429 h400] at h1 h2
          cases i with
          | zero => rw [List.getElem?_cons_succ] at h2; cases h2
          | succ n => rw [List.getElem?_cons_succ] at h1; cases h1

/-- `_api_sleep_time` in closed form: with more than two log entries it is
`min(60, ceil(newest - oldest))` seconds; otherwise the full 60-second
window. -/
theorem api_sleep_time_eq (log : List QueryLogEntry) :
    api_sleep_time log =
      if 2 < log.length then
        min 60 ⌈(log.getLastD default).query_timestamp -
          (log.headD default).query_timestamp⌉
      else 60 := by
  unfold api_sleep_time timestamp_to_datetime
  by_cases h : 2 < log.length
  · rw [if_pos h, if_pos h]
    rcases lt_or_le
      (⌈(log.getLastD default).query_timestamp -
        (log.headD default).query_timestamp⌉ : Int) 60 with hd | hd
    · rw [if_pos hd]
      exact (min_eq_right hd.le).symm
    · rw [if_neg (not_lt.2 hd)]
      exact (min_eq_left hd).symm
  · rw [if_neg h, if_neg h]

/-- `pyRound` never rounds below the floor. -/
theorem pyRound_ge_floor (q : ℚ) : ⌊q⌋ ≤ pyRound q := by
  simp only [pyRound]
  split
  · exact le_refl _
  · split
    · omega
    · split
      · exact le_refl _
      · omega

theorem pySlices_flatten_aux {γ : Type} (bsPred : Nat) :
    ∀ (n : Nat) (l : List γ), l.length ≤ n → (pySlices bsPred l).flatten = l := by
  intro n
  induction n with
  | zero =>
    intro l hl
    rw [List.eq_nil_of_length_eq_zero (Nat.le_zero.1 hl)]
    simp [pySlices]
  | succ n ih =>
    intro l hl
    cases l with
    | nil => simp [pySlices]
    | cons x xs =>
      rw [pySlices]
      rw [List.flatten_cons]
      rw [ih (xs.drop bsPred) (by simp at hl ⊢; omega)]
      rw [List.take_succ_cons, List.cons_append]
      rw [List.take_append_drop]

/-- Concatenating the slices reproduces the original list. -/
theorem pySlices_flatten {γ : Type} (bsPred : Nat) (l : List γ) :
    (pySlices bsPred l).flatten = l :=
  pySlices_flatten_aux bsPred l.length l (le_refl _)

theorem pySlices_length_le_aux {γ : Type} (bsPred : Nat) :
    ∀ (n : Nat) (l : List γ), l.length ≤ n →
      ∀ b ∈ pySlices bsPred l, b.length ≤ bsPred + 1 := by
  intro n
  induction n with
  | zero =>
    intro l hl b hb
    rw [List.eq_nil_of_length_eq_zero (Nat.le_zero.1 hl)] at hb
    simp [pySlices] at hb
  | succ n ih =>
    intro l hl b hb
    cases l with
    | nil => simp [pySlices] at hb
    | cons x xs =>
      rw [pySlices] at hb
      rcases List.mem_cons.1 hb with h | h
      · subst h
        simpa using Nat.min_le_left (bsPred + 1) (x :: xs).length
      · exact ih (xs.drop bsPred) (by simp at hl ⊢; omega) b h

/-- Every slice has length at most `bsPred + 1`. -/
theorem pySlices_length_le {γ : Type} (bsPred : Nat) (l : List γ) :
    ∀ b ∈ pySlices bsPred l, b.length ≤ bsPred + 1 :=
  pySlices_length_le_aux bsPred l.length l (le_refl _)

theorem pySlices_nil_iff {γ : Type} (bsPred : Nat) (l : List γ) :
    pySlices bsPred l = [] ↔ l = [] := by
  cases l with
  | nil => simp [pySlices]
  | cons x xs => rw [pySlices]; simp

theorem pySlices_dropLast_length_aux {γ : Type} (bsPred : Nat) :
    ∀ (n : Nat) (l : List γ), l.length ≤ n →
      ∀ b ∈ (pySlices bsPred l).dropLast, b.length = bsPred + 1 := by
  intro n
  induction n with
  | zero =>
    intro l hl b hb
    rw [List.eq_nil_of_length_eq_zero (Nat.le_zero.1 hl)] at hb
    simp [pySlices] at hb
  | succ n ih =>
    intro l hl b hb
    cases l with
    | nil => simp [pySlices] at hb
    | cons x xs =>
      rw [pySlices] at hb
      cases htl : pySlices bsPred (xs.drop bsPred) with
      | nil => rw [htl] at hb; simp at hb
      | cons y ys =>
        rw [htl] at hb
        rw [List.dropLast_cons₂] at hb
        rcases List.mem_cons.1 hb with h | h
        · subst h
          have hxs : ¬xs.drop bsPred = [] := by
            intro hc
            rw [hc] at htl
            simp [pySlices] at htl
          have hlen : bsPred < xs.length := by
            rcases Nat.lt_or_ge bsPred xs.length with hh | hh
            · exact hh
            · exact absurd (List.drop_eq_nil_iff.2 hh) hxs
          simp only [List.length_take, List.length_cons]
          omega
        · rw [← htl] at h
          exact ih (xs.drop bsPred) (by simp at hl ⊢; omega) b h

/-- Every slice except possibly the last has length exactly `bsPred + 1`. -/
theorem pySlices_dropLast_length {γ : Type} (bsPred : Nat) (l : List γ) :
    ∀ b ∈ (pySlices bsPred l).dropLast, b.length = bsPred + 1 :=
  pySlices_dropLast_length_aux bsPred l.length l (le_refl _)

/-- On a non-empty record list whose first record has between 1 and 60000
keys, `make_clean_generator` raises nothing and yields the
`batch_size`-sized consecutive slices, `batch_size = round(60000 /
record_size)`. -/
theorem make_clean_generator_cons {γ : Type} (recLen : γ → Nat) (r : γ) (rest : List γ)
    (h1 : 1 ≤ recLen r) (h2 : recLen r ≤ 60000) :
    make_clean_generator recLen (r :: rest) =
      Except.ok
        (pySlices ((pyRound ((60000 : ℚ) / recLen r)).toNat - 1) (r :: rest)) := by
  simp only [make_clean_generator]
  have h0 : ¬recLen r = 0 := by omega
  rw [if_neg h0]
  have hq : (1 : ℚ) ≤ (60000 : ℚ) / recLen r := by
    rw [one_le_div (by exact_mod_cast Nat.lt_of_lt_of_le Nat.zero_lt_one h1)]
    exact_mod_cast h2
  have hfl : (1 : Int) ≤ ⌊(60000 : ℚ) / recLen r⌋ := Int.le_floor.2 (by exact_mod_cast hq)
  have hbs : 1 ≤ pyRound ((60000 : ℚ) / recLen r) :=
    le_trans hfl (pyRound_ge_floor _)
  have hne : ¬(pyRound ((60000 : ℚ) / recLen r)).toNat = 0 := by omega
  rw [if_neg hne]

end PolygonPaginator

/-- `StockMetaData.clean_data` as a state transformer (reads `results`,
extends `clean_results`). -/
def StockMetaData.clean_data_st
    (st : PagState (List RawTickerRec) TickerMetadataRec) :
    PagState (List RawTickerRec) TickerMetadataRec :=
  { st with clean_results := StockMetaData.clean_data st.results st.clean_results }

/-- `fetch` for the `StockMetaData` subclass. -/
def StockMetaData.fetch (key ticker : String) (all_ : Bool)
    (script : List (UpResponse (List RawTickerRec)))
    (st : PagState (List RawTickerRec) TickerMetadataRec) :
    FetchOut (List RawTickerRec) TickerMetadataRec :=
  fetchRun (StockMetaData.query_data key ticker all_ script st)
    StockMetaData.clean_data_st tickerRecLen

section Dedup

variable {K V : Type} [DecidableEq K]

@[simp] theorem pyDictKeys_nil : pyDictKeys ([] : List (K × V)) = [] := rfl

@[simp] theorem pyDictKeys_cons (p : K × V) (d : List (K × V)) :
    pyDictKeys (p :: d) = p.1 :: pyDictKeys d := rfl

@[simp] theorem pyDictKeys_append (d d' : List (K × V)) :
    pyDictKeys (d ++ d') = pyDictKeys d ++ pyDictKeys d' := by
  simp [pyDictKeys]

@[simp] theorem alookup_nil (k : K) : alookup k ([] : List (K × V)) = none := rfl

theorem alookup_cons (k : K) (p : K × V) (d : List (K × V)) :
    alookup k (p :: d) = if p.1 = k then some p.2 else alookup k d := rfl

@[simp] theorem dictUpsert_nil (k : K) (v : V) :
    dictUpsert k v ([] : List (K × V)) = [(k, v)] := rfl

theorem dictUpsert_cons (k : K) (v : V) (p : K × V) (d : List (K × V)) :
    dictUpsert k v (p :: d) =
      if p.1 = k then (k, v) :: d else p :: dictUpsert k v d := rfl

theorem alookup_eq_none_iff (k : K) (d : List (K × V)) :
    alookup k d = none ↔ k ∉ pyDictKeys d := by
  induction d with
  | nil => simp
  | cons p rest ih =>
    by_cases h : p.1 = k
    · simp [alookup_cons, h]
    · rw [alookup_cons, if_neg h, pyDictKeys_cons]
      rw [ih]
      simp only [List.mem_cons]
      constructor
      · intro hk hc
        rcases hc with hc | hc
        · exact h hc.symm
        · exact hk hc
      · intro hk
        exact fun hc => hk (Or.inr hc)

theorem dictUpsert_of_not_mem (k : K) (v : V) (d : List (K × V))
    (h : k ∉ pyDictKeys d) : dictUpsert k v d = d ++ [(k, v)] := by
  induction d with
  | nil => rfl
  | cons p rest ih =>
    rw [pyDictKeys_cons, List.mem_cons] at h
    push_neg at h
    rw [dictUpsert_cons, if_neg (fun hc => h.1 hc.symm), ih h.2]
    rfl

theorem pyDictKeys_dictUpsert (k : K) (v : V) (d : List (K × V)) :
    pyDictKeys (dictUpsert k v d) =
      if k ∈ pyDictKeys d then pyDictKeys d else pyDictKeys d ++ [k] := by
  induction d with
  | nil => simp
  | cons p rest ih =>
    by_cases h : p.1 = k
    · rw [dictUpsert_cons, if_pos h, pyDictKeys_cons, pyDictKeys_cons,
        if_pos (by rw [List.mem_cons]; exact Or.inl h.symm), h]
    · rw [dictUpsert_cons, if_neg h, pyDictKeys_cons, pyDictKeys_cons, ih]
      by_cases hm : k ∈ pyDictKeys rest
      · rw [if_pos hm, if_pos (by rw [List.mem_cons]; exact Or.inr hm)]
      · have hnotin : k ∉ p.1 :: pyDictKeys rest := by
          rw [List.mem_cons]
          rintro (hc | hc)
          · exact h hc.symm
          · exact hm hc
        rw [if_neg hm, if_neg hnotin]
        rfl

theorem nodup_keys_dictUpsert (k : K) (v : V) (d : List (K × V))
    (h : (pyDictKeys d).Nodup) : (pyDictKeys (dictUpsert k v d)).Nodup := by
  rw [pyDictKeys_dictUpsert]
  by_cases hm : k ∈ pyDictKeys d
  · rw [if_pos hm]; exact h
  · rw [if_neg hm, List.nodup_append]
    refine ⟨h, List.nodup_singleton k, fun a ha hb => ?_⟩
    rw [List.mem_singleton] at hb
    exact hm (hb ▸ ha)

/-- Every entry's key column agrees with the key of its value record. -/
def keyed (key : V → K) (d : List (K × V)) : Prop := ∀ p ∈ d, key p.2 = p.1

theorem keyed_nil (key : V → K) : keyed key ([] : List (K × V)) := by
  intro p hp; cases hp

theorem keyed_dictUpsert (key : V → K) (v : V) (d : List (K × V))
    (h : keyed key d) : keyed key (dictUpsert (key v) v d) := by
  induction d with
  | nil =>
    intro p hp
    rw [dictUpsert_nil, List.mem_singleton] at hp
    subst hp; rfl
  | cons q rest ih =>
    rw [dictUpsert_cons]
    by_cases hq : q.1 = key v
    · rw [if_pos hq]
      intro p hp
      rcases List.mem_cons.1 hp with hc | hc
      · subst hc; rfl
      · exact h p (List.mem_cons_of_mem q hc)
    · rw [if_neg hq]
      intro p hp
      rcases List.mem_cons.1 hp with hc | hc
      · subst hc; exact h _ (List.mem_cons_self _ _)
      · exact ih (fun r hr => h r (List.mem_cons_of_mem q hr)) p hc

theorem alookup_dictUpsert_self (k : K) (v : V) (d : List (K × V)) :
    alookup k (dictUpsert k v d) = some v := by
  induction d with
  | nil => rw [dictUpsert_nil, alookup_cons, if_pos rfl]
  | cons p rest ih =>
    rw [dictUpsert_cons]
    by_cases h : p.1 = k
    · rw [if_pos h, alookup_cons, if_pos rfl]
    · rw [if_neg h, alookup_cons, if_neg h, ih]

theorem alookup_dictUpsert_ne (k' k : K) (v : V) (d : List (K × V))
    (h : ¬k' = k) : alookup k' (dictUpsert k v d) = alookup k' d := by
  induction d with
  | nil =>
    rw [dictUpsert_nil, alookup_cons, if_neg (fun hc => h hc.symm), alookup_nil]
  | cons p rest ih =>
    rw [dictUpsert_cons]
    by_cases hp : p.1 = k
    · rw [if_pos hp, alookup_cons, if_neg (fun hc => h hc.symm),
        alookup_cons, if_neg (by rw [hp]; exact fun hc => h hc.symm)]
    · rw [if_neg hp, alookup_cons, alookup_cons, ih]

@[simp] theorem pyDict_nil (key : V → K) : pyDict key [] = [] := rfl

theorem pyDict_append (key : V → K) (l m : List V) :
    pyDict key (l ++ m) =
      m.foldl (fun d v => dictUpsert (key v) v d) (pyDict key l) := by
  simp [pyDict, List.foldl_append]

theorem pyDict_concat (key : V → K) (l : List V) (v : V) :
    pyDict key (l ++ [v]) = dictUpsert (key v) v (pyDict key l) := by
  rw [pyDict_append]; rfl

theorem foldl_upsert_inv (key : V → K) (m : List V) :
    ∀ d : List (K × V), (pyDictKeys d).Nodup → keyed key d →
      (pyDictKeys (m.foldl (fun d v => dictUpsert (key v) v d) d)).Nodup ∧
        keyed key (m.foldl (fun d v => dictUpsert (key v) v d) d) := by
  induction m with
  | nil => intro d h1 h2; exact ⟨h1, h2⟩
  | cons v m ih =>
    intro d h1 h2
    rw [List.foldl_cons]
    exact ih _ (nodup_keys_dictUpsert _ _ _ h1) (keyed_dictUpsert key v d h2)

theorem pyDict_nodup_keys (key : V → K) (l : List V) :
    (pyDictKeys (pyDict key l)).Nodup :=
  (foldl_upsert_inv key l [] List.nodup_nil (keyed_nil key)).1

theorem pyDict_keyed (key : V → K) (l : List V) : keyed key (pyDict key l) :=
  (foldl_upsert_inv key l [] List.nodup_nil (keyed_nil key)).2

theorem alookup_pyDict (key : V → K) (k : K) (l : List V) :
    alookup k (pyDict key l) = (l.filter (fun v => key v = k)).getLast? := by
  induction l using List.reverseRecOn with
  | nil => simp
  | append_singleton l v ih =>
    rw [pyDict_concat, List.filter_append]
    by_cases h : key v = k
    · rw [h, alookup_dictUpsert_self]
      have hone : List.filter (fun v => decide (key v = k)) [v] = [v] := by simp [h]
      rw [hone, List.getLast?_concat]
    · rw [alookup_dictUpsert_ne k (key v) v _ (fun hc => h hc.symm), ih]
      have hzero : List.filter (fun v => decide (key v = k)) [v] = [] := by simp [h]
      rw [hzero, List.append_nil]

theorem foldl_upsert_values (key : V → K) :
    ∀ (d d₀ : List (K × V)), keyed key d → (pyDictKeys d).Nodup →
      (∀ k ∈ pyDictKeys d, k ∉ pyDictKeys d₀) →
      (d.map Prod.snd).foldl (fun d v => dictUpsert (key v) v d) d₀ = d₀ ++ d := by
  intro d
  induction d with
  | nil => intro d₀ _ _ _; simp
  | cons p rest ih =>
    intro d₀ hkeyed hnodup hdisj
    rw [List.map_cons, List.foldl_cons]
    have hk : key p.2 = p.1 := hkeyed p (List.mem_cons_self p rest)
    have hp1 : p.1 ∉ pyDictKeys d₀ :=
      hdisj p.1 (by rw [pyDictKeys_cons]; exact List.mem_cons_self _ _)
    rw [hk, dictUpsert_of_not_mem p.1 p.2 d₀ hp1]
    have hstep : d₀ ++ [(p.1, p.2)] = d₀ ++ [p] := by simp
    rw [hstep]
    rw [pyDictKeys_cons] at hnodup
    have hnd := List.nodup_cons.1 hnodup
    rw [ih (d₀ ++ [p])
      (fun q hq => hkeyed q (List.mem_cons_of_mem p hq)) hnd.2
      (fun k hk2 => by
        rw [pyDictKeys_append, List.mem_append]
        rintro (hc | hc)
        · exact hdisj k (by rw [pyDictKeys_cons]; exact List.mem_cons_of_mem _ hk2) hc
        · simp only [pyDictKeys_cons, pyDictKeys_nil, List.mem_singleton] at hc
          exact hnd.1 (hc ▸ hk2))]
    simp

theorem pyDict_dedupBy (key : V → K) (l : List V) :
    pyDict key (dedupBy key l) = pyDict key l := by
  have h := foldl_upsert_values key (pyDict key l) []
    (pyDict_keyed key l) (pyDict_nodup_keys key l)
    (fun k _ => List.not_mem_nil k)
  simpa using h

theorem dedup_snoc (key : V → K) (l : List V) (v : V) :
    dedupBy key (dedupBy key l ++ [v]) = dedupBy key (l ++ [v]) := by
  show (pyDict key (dedupBy key l ++ [v])).map Prod.snd =
    (pyDict key (l ++ [v])).map Prod.snd
  rw [pyDict_concat, pyDict_concat, pyDict_dedupBy]

theorem foldl_dedup_snoc (key : V → K) (recs : List V) :
    ∀ l : List V,
      recs.foldl (fun a r => dedupBy key (a ++ [r])) (dedupBy key l) =
        dedupBy key (l ++ recs) := by
  induction recs with
  | nil => intro l; simp
  | cons r recs ih =>
    intro l
    rw [List.foldl_cons, dedup_snoc, ih (l ++ [r])]
    simp

theorem alookup_ext : ∀ (d d' : List (K × V)),
    (pyDictKeys d).Nodup → (pyDictKeys d').Nodup →
    pyDictKeys d = pyDictKeys d' → (∀ k, alookup k d = alookup k d') → d = d' := by
  intro d
  induction d with
  | nil =>
    intro d' _ _ hkeys _
    cases d' with
    | nil => rfl
    | cons p rest => cases hkeys
  | cons p rest ih =>
    intro d' hnd hnd' hkeys hlook
    cases d' with
    | nil => cases hkeys
    | cons p' rest' =>
      rw [pyDictKeys_cons, pyDictKeys_cons] at hkeys
      have hk1 : p.1 = p'.1 := by injection hkeys
      have hkrest : pyDictKeys rest = pyDictKeys rest' := by injection hkeys
      have hv : p.2 = p'.2 := by
        have h1 := hlook p.1
        rw [alookup_cons, if_pos rfl, alookup_cons, if_pos hk1.symm] at h1
        exact Option.some.inj h1
      rw [pyDictKeys_cons] at hnd hnd'
      have hnd1 := List.nodup_cons.1 hnd
      have hnd1' := List.nodup_cons.1 hnd'
      have hrest : rest = rest' := by
        refine ih rest' hnd1.2 hnd1'.2 hkrest (fun k => ?_)
        by_cases hk : k = p.1
        · subst hk
          rw [(alookup_eq_none_iff _ _).2 hnd1.1,
            (alookup_eq_none_iff _ _).2 (by rw [hk1]; exact hnd1'.1)]
        · have h1 := hlook k
          rw [alookup_cons, if_neg (fun hc => hk hc.symm), alookup_cons,
            if_neg (fun hc => hk (by rw [hk1, hc]))] at h1
          exact h1
      rw [hrest, Prod.ext hk1 hv]

theorem pyDictKeys_foldl_mem (key : V → K) (m : List V) :
    ∀ d : List (K × V), (∀ v ∈ m, key v ∈ pyDictKeys d) →
      pyDictKeys (m.foldl (fun d v => dictUpsert (key v) v d) d) = pyDictKeys d := by
  induction m with
  | nil => intro d _; rfl
  | cons v m ih =>
    intro d hmem
    rw [List.foldl_cons]
    have hkeys : pyDictKeys (dictUpsert (key v) v d) = pyDictKeys d := by
      rw [pyDictKeys_dictUpsert, if_pos (hmem v (List.mem_cons_self v m))]
    rw [ih _ (fun w hw => by rw [hkeys]; exact hmem w (List.mem_cons_of_mem v hw)),
      hkeys]

theorem mem_keys_pyDict (key : V → K) (k : K) (l : List V) :
    k ∈ pyDictKeys (pyDict key l) ↔ k ∈ l.map key := by
  constructor
  · intro hk
    by_contra hmem
    have hfil : l.filter (fun v => decide (key v = k)) = [] := by
      rw [List.filter_eq_nil_iff]
      intro v hv
      simp only [decide_eq_true_eq]
      intro hc
      exact hmem (List.mem_map.2 ⟨v, hv, hc⟩)
    have hl := alookup_pyDict key k l
    rw [hfil] at hl
    exact (alookup_eq_none_iff k (pyDict key l)).1 hl hk
  · intro hmem
    obtain ⟨v, hvl, hvk⟩ := List.mem_map.1 hmem
    by_contra hk
    have hnone := (alookup_eq_none_iff k (pyDict key l)).2 hk
    rw [alookup_pyDict, List.getLast?_eq_none_iff] at hnone
    have hm : v ∈ l.filter (fun v => decide (key v = k)) :=
      List.mem_filter.2 ⟨hvl, by simpa using hvk⟩
    rw [hnone] at hm
    cases hm

theorem pyDict_self_append (key : V → K) (l : List V) :
    pyDict key (l ++ l) = pyDict key l := by
  refine alookup_ext _ _ (pyDict_nodup_keys key _) (pyDict_nodup_keys key _) ?_
    (fun k => ?_)
  · rw [pyDict_append]
    exact pyDictKeys_foldl_mem key l (pyDict key l)
      (fun v hv => (mem_keys_pyDict key (key v) l).2 (List.mem_map_of_mem key hv))
  · rw [alookup_pyDict, alookup_pyDict, List.filter_append]
    cases hf : List.filter (fun v => decide (key v = k)) l with
    | nil => rfl
    | cons x xs =>
      rw [List.getLast?_append_of_ne_nil _ (by simp)]

theorem dedupBy_self_append (key : V → K) (l : List V) :
    dedupBy key (l ++ l) = dedupBy key l := by
  unfold dedupBy
  rw [pyDict_self_append]

theorem values_filter (key : V → K) :
    ∀ d : List (K × V), keyed key d → (pyDictKeys d).Nodup → ∀ k,
      (d.map Prod.snd).filter (fun v => key v = k) = (alookup k d).toList := by
  intro d
  induction d with
  | nil => intro _ _ k; rfl
  | cons p rest ih =>
    intro hkeyed hnodup k
    rw [pyDictKeys_cons] at hnodup
    have hnd := List.nodup_cons.1 hnodup
    have hk : key p.2 = p.1 := hkeyed p (List.mem_cons_self p rest)
    rw [List.map_cons, List.filter_cons, alookup_cons]
    by_cases h : p.1 = k
    · rw [if_pos h]
      have hcond : (decide (key p.2 = k)) = true := by
        rw [hk, h]; simp
      rw [hcond]
      have hrest : List.filter (fun v => decide (key v = k)) (rest.map Prod.snd) = [] := by
        rw [List.filter_eq_nil_iff]
        intro v hv
        obtain ⟨q, hq, hqv⟩ := List.mem_map.1 hv
        have hkv : key v = q.1 := by
          rw [← hqv]; exact hkeyed q (List.mem_cons_of_mem p hq)
        rw [hkv]
        simp only [decide_eq_true_eq]
        intro hc
        refine hnd.1 ?_
        rw [← h] at hc
        rw [← hc]
        exact List.mem_map_of_mem Prod.fst hq
      rw [hrest]
      rfl
    · rw [if_neg h]
      have hcond : (decide (key p.2 = k)) = false := by
        rw [hk]; simpa using h
      rw [hcond]
      simp only [Bool.false_eq_true, if_false]
      exact ih (fun q hq => hkeyed q (List.mem_cons_of_mem p hq)) hnd.2 k

/-- The deduplicated collection restricted to one key is exactly the last
occurrence of that key in the input (empty when the key never occurs). -/
theorem dedupBy_filter_key (key : V → K) (l : List V) (k : K) :
    (dedupBy key l).filter (fun v => key v = k) =
      ((l.filter (fun v => key v = k)).getLast?).toList := by
  unfold dedupBy
  rw [values_filter key (pyDict key l) (pyDict_keyed key l)
    (pyDict_nodup_keys key l) k, alookup_pyDict]

@[simp] theorem dedupBy_nil {K V : Type} [DecidableEq K] (key : V → K) :
    dedupBy key [] = [] := rfl

end Dedup

theorem foldl_append_map {A B : Type} (f : A → B) (l : List A) :
    ∀ acc : List B, l.foldl (fun a x => a ++ [f x]) acc = acc ++ l.map f := by
  induction l with
  | nil => intro acc; simp
  | cons x xs ih =>
    intro acc
    rw [List.foldl_cons, ih]
    simp

theorem foldl_pages {P B C : Type} (data : P → List B) (g : C → B → C)
    (pages : List P) :
    ∀ c0 : C, pages.foldl (fun acc p => (data p).foldl g acc) c0 =
      ((pages.map data).flatten).foldl g c0 := by
  induction pages with
  | nil => intro c0; rfl
  | cons p ps ih =>
    intro c0
    rw [List.foldl_cons, ih, List.map_cons, List.flatten_cons, List.foldl_append]

/-- `StockMetaData.clean_data` in closed form: it appends the normalized
records of all pages, in order, to the existing `clean_results`. -/
theorem StockMetaData.stock_clean_data_eq (results : List (PageBody (List RawTickerRec)))
    (c0 : List TickerMetadataRec) :
    StockMetaData.clean_data results c0 =
      c0 ++ ((results.map PageBody.data).flatten).map StockMetaData.cleanRec := by
  unfold StockMetaData.clean_data
  rw [foldl_pages PageBody.data (fun acc2 r => acc2 ++ [StockMetaData.cleanRec r])]
  rw [foldl_append_map]

/-- `HistoricalStockPrices.clean_data` in closed form. -/
theorem HistoricalStockPrices.prices_clean_data_eq (tid : Int)
    (results : List (PageBody (List RawBarRec))) (c0 : List PriceBarRec) :
    HistoricalStockPrices.clean_data tid results c0 =
      c0 ++ ((results.map PageBody.data).flatten).map
        (HistoricalStockPrices.cleanRec tid) := by
  unfold HistoricalStockPrices.clean_data
  rw [foldl_pages PageBody.data
    (fun acc2 r => acc2 ++ [HistoricalStockPrices.cleanRec tid r])]
  rw [foldl_append_map]

/-- `OptionsContracts.clean_data` as a single fold of append-then-dedup
steps over all normalized records. -/
theorem OptionsContracts.clean_data_eq_foldl (tid : Int)
    (results : List (PageBody (List RawContractRec))) (c0 : List OptionContractRec) :
    OptionsContracts.clean_data tid results c0 =
      (OptionsContracts.allRecs tid results).foldl
        (fun a r => OptionsContracts.dedup (a ++ [r])) c0 := by
  unfold OptionsContracts.clean_data OptionsContracts.allRecs
  rw [foldl_pages PageBody.data
    (fun acc2 r => OptionsContracts.dedup (acc2 ++ [OptionsContracts.cleanRec tid r]))]
  rw [List.foldl_map]

/-- Starting from empty `clean_results`, `OptionsContracts.clean_data` is
the one-shot dedup of all accumulated records. -/
theorem OptionsContracts.clean_data_dedup (tid : Int)
    (results : List (PageBody (List RawContractRec))) :
    OptionsContracts.clean_data tid results [] =
      OptionsContracts.dedup (OptionsContracts.allRecs tid results) := by
  rw [OptionsContracts.clean_data_eq_foldl]
  have h := foldl_dedup_snoc (fun v : OptionContractRec => v.option_ticker)
    (OptionsContracts.allRecs tid results) []
  rw [dedupBy_nil, List.nil_append] at h
  exact h

/-- Re-running `OptionsContracts.clean_data` on the same pages leaves
`clean_results` unchanged: the per-append dedup collapses the re-appended
duplicates. -/
theorem OptionsContracts.clean_data_idem (tid : Int)
    (results : List (PageBody (List RawContractRec))) :
    OptionsContracts.clean_data tid results
        (OptionsContracts.clean_data tid results []) =
      OptionsContracts.clean_data tid results [] := by
  rw [OptionsContracts.clean_data_dedup, OptionsContracts.clean_data_eq_foldl]
  have h := foldl_dedup_snoc (fun v : OptionContractRec => v.option_ticker)
    (OptionsContracts.allRecs tid results) (OptionsContracts.allRecs tid results)
  rw [dedupBy_self_append] at h
  exact h

theorem fetchRun_outcome {α γ : Type} (out : QueryAllOut α γ)
    (cleanFn : PagState α γ → PagState α γ) (recLen : γ → Nat) :
    (fetchRun out cleanFn recLen).outcome = out.outcome := by
  rcases out with ⟨st, oc, tr, rest⟩
  cases oc <;> rfl

/-- `OptionsContracts.dedup` restricted to one natural key is the last
occurrence of that key among the input records. -/
theorem OptionsContracts.dedup_filter_key (l : List OptionContractRec) (k : Option Val) :
    (OptionsContracts.dedup l).filter (fun v => v.option_ticker = k) =
      ((l.filter (fun v => v.option_ticker = k)).getLast?).toList :=
  dedupBy_filter_key (fun v : OptionContractRec => v.option_ticker) l k

/-- C1: over any finite script of upstream responses (each 200 optionally
carrying a `next_url` cursor, finitely many 429s), `query_all` terminates —
in this embedding it is a total function, defined by structural recursion
on the finite script, so every run ends.  On normal return the consumed
responses form a prefix of the script in request order, and `results` is
the initial collection extended by exactly the body of every 200 response
of the chain — one entry per 200 response, in request order, so no page is
collected twice. -/
theorem C1_pagination_termination_and_collection {α γ : Type} (key : String)
    (script : List (UpResponse α)) (st : PagState α γ) (url : String)
    (payload : Payload) (ov : Bool)
    (hdone : (PolygonPaginator.query_all key script st url payload ov).outcome =
      Outcome.done) :
    ((PolygonPaginator.query_all key script st url payload ov).trace.map
        TraceEntry.response) =
      script.take
        (PolygonPaginator.query_all key script st url payload ov).trace.length ∧
    (PolygonPaginator.query_all key script st url payload ov).state.results =
      st.results ++
        ((((PolygonPaginator.query_all key script st url payload ov).trace.map
            TraceEntry.response).filter (fun r => r.status = 200)).map
          UpResponse.body) := by
  constructor
  · exact PolygonPaginator.query_all_trace_responses key script st url payload ov
  · rw [PolygonPaginator.query_all_results key script st url payload ov,
      List.filter_map, List.map_map]
    rfl

def c1Body1 : PageBody Nat := ⟨some (Val.vstr ("id1")), some ("u2"), 1⟩

def c1Body2 : PageBody Nat := ⟨none, none, 2⟩

def c1Body3 : PageBody Nat := ⟨some (Val.vstr ("id3")), none, 3⟩

def c1Script : List (UpResponse Nat) :=
  [⟨200, c1Body1, 1⟩, ⟨429, c1Body2, 2⟩, ⟨200, c1Body3, 3⟩]

def c1State : PagState Nat Unit := PagState.init

theorem C1_witness :
    ((PolygonPaginator.query_all ("KEY") c1Script c1State ("u1") [] false).trace.map
        TraceEntry.response) =
      c1Script.take
        (PolygonPaginator.query_all ("KEY") c1Script c1State ("u1") [] false).trace.length ∧
    (PolygonPaginator.query_all ("KEY") c1Script c1State ("u1") [] false).state.results =
      c1State.results ++
        ((((PolygonPaginator.query_all ("KEY") c1Script c1State ("u1") [] false).trace.map
            TraceEntry.response).filter (fun r => r.status = 200)).map
          UpResponse.body) :=
  C1_pagination_termination_and_collection ("KEY") c1Script c1State ("u1") [] false
    (by decide)

/-- C2: `MAX_QUERY_PER_MINUTE` is 4; whenever `query_count` has reached it
or `overload` is set, the invocation sleeps before issuing the request for
`min(60, ceil(newest - oldest))` seconds over the current log — defaulting
to the full 60 seconds when the log holds fewer than three entries — and
proceeds from a state with `query_count = 0` and an empty log; when the
quota is not exhausted and `overload` is clear, no sleep occurs and the
state is untouched.  The sleep recorded on the first issued request is
exactly the throttle's decision. -/
theorem C2_throttle_policy {α γ : Type} (st : PagState α γ) (ov : Bool)
    (key url : String) (script : List (UpResponse α)) (payload : Payload) :
    PolygonPaginator.MAX_QUERY_PER_MINUTE = 4 ∧
    (PolygonPaginator.MAX_QUERY_PER_MINUTE ≤ st.query_count ∨ ov = true →
      (PolygonPaginator.throttle st ov).1 =
        some (if 2 < st.query_time_log.length then
          min 60 ⌈(st.query_time_log.getLastD default).query_timestamp -
            (st.query_time_log.headD default).query_timestamp⌉
        else 60) ∧
      (PolygonPaginator.throttle st ov).2.query_count = 0 ∧
      (PolygonPaginator.throttle st ov).2.query_time_log = []) ∧
    (st.query_count < PolygonPaginator.MAX_QUERY_PER_MINUTE ∧ ov = false →
      PolygonPaginator.throttle st ov = (none, st)) ∧
    ((PolygonPaginator.query_all key script st url payload ov).trace.head?.map
        TraceEntry.sleep) =
      script.head?.map (fun _ => (PolygonPaginator.throttle st ov).1) := by
  refine ⟨rfl, fun h => ?_, fun h => ?_, ?_⟩
  · rw [PolygonPaginator.throttle_fst, if_pos h, PolygonPaginator.api_sleep_time_eq,
      PolygonPaginator.throttle_count, if_pos h, PolygonPaginator.throttle_log,
      if_pos h]
    exact ⟨rfl, rfl, rfl⟩
  · have hnot : ¬(PolygonPaginator.MAX_QUERY_PER_MINUTE ≤ st.query_count ∨
        ov = true) := by
      rintro (hc | hc)
      · omega
      · rw [h.2] at hc; cases hc
    unfold PolygonPaginator.throttle
    rw [if_neg hnot]
  · rw [PolygonPaginator.query_all_trace_head]
    cases script with
    | nil => rfl
    | cons resp rest => rfl

def c2State : PagState Nat Unit :=
  ⟨4, [⟨none, 0⟩, ⟨none, 10⟩, ⟨none, 20⟩], [], []⟩

theorem C2_witness :
    (PolygonPaginator.throttle c2State false).1 = some 20 ∧
    (PolygonPaginator.throttle c2State false).2.query_count = 0 ∧
    (PolygonPaginator.throttle c2State false).2.query_time_log = [] := by
  have h := (C2_throttle_policy c2State false ("KEY") ("u")
    ([] : List (UpResponse Nat)) []).2.1 (Or.inl (by decide))
  refine ⟨?_, h.2.1, h.2.2⟩
  rw [h.1, if_pos (by decide : (2 : Nat) < c2State.query_time_log.length)]
  have h1 : c2State.query_time_log.getLastD default = ⟨none, 20⟩ := rfl
  have h2 : c2State.query_time_log.headD default = ⟨none, 0⟩ := rfl
  rw [h1, h2]
  norm_num

def c3Body : PageBody Nat := ⟨none, none, 0⟩

def c3Script : List (UpResponse Nat) := [⟨404, c3Body, 1⟩]

def c3Body204 : PageBody Nat := ⟨none, none, 5⟩

def c3Script204 : List (UpResponse Nat) := [⟨204, c3Body204, 1⟩]

def c3State : PagState Nat Unit := PagState.init

/-- C3 counterexample: a chain whose sole response has status 204 — a
status other than 200 and 429 — raises nothing: the source's
`response.raise_for_status()` raises only for statuses of at least 400, so
the chain returns normally (and stores no page), refuting the claimed
"raises an error if and only if some response has a status other than 200
and 429". -/
theorem C3_counterexample :
    (PolygonPaginator.query_all ("KEY") c3Script204 c3State ("u") [] false).outcome =
      Outcome.done ∧
    ((PolygonPaginator.query_all ("KEY") c3Script204 c3State ("u") [] false).trace.map
      (fun e => e.response.status)) = [204] ∧
    ¬(204 : Nat) = 200 ∧ ¬(204 : Nat) = 429 ∧
    (PolygonPaginator.query_all ("KEY") c3Script204 c3State ("u") [] false).state.results =
      [] := by decide

/-- C3 amended: a chain raises an error identifying the HTTP status if and
only if some consumed response has a status of at least 400 other than 429
(`raise_for_status()` raises only for 4xx/5xx statuses; a non-200 status
below 400, such as 204, ends the chain normally without storing a page);
the raised error carries the status of the last (failing) response, which
is at least 400 and never 200 or 429 — so a 429 is never surfaced; the
request issued right after a 429 reuses the same URL and payload with
`overload = true`; and `fetch` propagates the raised status unmodified from
its `query_all` chain. -/
theorem C3_amended_error_taxonomy {α γ : Type} (key : String)
    (script : List (UpResponse α)) (st : PagState α γ) (url : String)
    (payload : Payload) (ov : Bool) (mkey ticker : String) (all_ : Bool)
    (mscript : List (UpResponse (List RawTickerRec)))
    (mst : PagState (List RawTickerRec) TickerMetadataRec) :
    ((∃ s, (PolygonPaginator.query_all key script st url payload ov).outcome =
        Outcome.httpError s) ↔
      ∃ e ∈ (PolygonPaginator.query_all key script st url payload ov).trace,
        400 ≤ e.response.status ∧ ¬e.response.status = 429) ∧
    (∀ s, (PolygonPaginator.query_all key script st url payload ov).outcome =
        Outcome.httpError s →
      400 ≤ s ∧ ¬s = 200 ∧ ¬s = 429 ∧
        ((PolygonPaginator.query_all key script st url payload ov).trace.getLast?.map
          (fun e => e.response.status)) = some s) ∧
    (∀ (i : Nat) (e e' : TraceEntry α),
      (PolygonPaginator.query_all key script st url payload ov).trace[i]? = some e →
      (PolygonPaginator.query_all key script st url payload ov).trace[i + 1]? =
        some e' →
      e.response.status = 429 →
      e'.url = e.url ∧ e'.payload = e.payload ∧ e'.overload = true) ∧
    (∀ s, (StockMetaData.fetch mkey ticker all_ mscript mst).outcome =
        Outcome.httpError s ↔
      (StockMetaData.query_data mkey ticker all_ mscript mst).outcome =
        Outcome.httpError s) := by
  refine ⟨PolygonPaginator.query_all_error_iff key script st url payload ov,
    fun s hs => ?_, fun i e e' h1 h2 h3 =>
      PolygonPaginator.query_all_429_retry key script st url payload ov i e e' h1 h2 h3,
    fun s => ?_⟩
  · obtain ⟨e, hlast, hst, h4, h1, h2, -⟩ :=
      PolygonPaginator.query_all_error_last key script st url payload ov s hs
    refine ⟨h4, h1, h2, ?_⟩
    rw [hlast, Option.map_some', hst]
  · unfold StockMetaData.fetch
    rw [fetchRun_outcome]

theorem C3_witness :
    400 ≤ (404 : Nat) ∧ ¬(404 : Nat) = 200 ∧ ¬(404 : Nat) = 429 ∧
      ((PolygonPaginator.query_all ("KEY") c3Script c3State ("u") [] false).trace.getLast?.map
        (fun e => e.response.status)) = some 404 :=
  (C3_amended_error_taxonomy ("KEY") c3Script c3State ("u") [] false ("KEY") ("T") false
    [] PagState.init).2.1 404 (by decide)

/-- C10: every received response increments `query_count` by exactly one
(from 0 when the throttle reset it just before the request, from the entry
count otherwise), regardless of status; `results` gains exactly one entry
per 200 response and `query_time_log` is replayed by `logStep` (cleared on
sleeps, extended only on 200s); and when the chain ends in a fatal error
the raised status is the failing response's, which — being neither 200 nor
429 — contributed nothing to `results` or the log, while the final
`query_count` includes its increment. -/
theorem C10_frame_effects {α γ : Type} (key : String)
    (script : List (UpResponse α)) (st : PagState α γ) (url : String)
    (payload : Payload) (ov : Bool) :
    (∀ e ∈ (PolygonPaginator.query_all key script st url payload ov).trace,
      e.count_after = (if e.sleep.isSome then 0 else e.count_before) + 1) ∧
    (PolygonPaginator.query_all key script st url payload ov).state.results =
      st.results ++
        (((PolygonPaginator.query_all key script st url payload ov).trace.filter
            (fun e => e.response.status = 200)).map (fun e => e.response.body)) ∧
    (PolygonPaginator.query_all key script st url payload ov).state.query_time_log =
      (PolygonPaginator.query_all key script st url payload ov).trace.foldl
        PolygonPaginator.logStep st.query_time_log ∧
    (∀ s, (PolygonPaginator.query_all key script st url payload ov).outcome =
        Outcome.httpError s →
      ∃ e, (PolygonPaginator.query_all key script st url payload ov).trace.getLast? =
          some e ∧
        e.response.status = s ∧ ¬s = 200 ∧ ¬s = 429 ∧
        (PolygonPaginator.query_all key script st url payload ov).state.query_count =
          e.count_after) :=
  ⟨PolygonPaginator.query_all_count_incr key script st url payload ov,
    PolygonPaginator.query_all_results key script st url payload ov,
    PolygonPaginator.query_all_log key script st url payload ov,
    fun s hs => by
      obtain ⟨e, hlast, hst, -, h1, h2, hcnt⟩ :=
        PolygonPaginator.query_all_error_last key script st url payload ov s hs
      exact ⟨e, hlast, hst, h1, h2, hcnt⟩⟩

def c10Body1 : PageBody Nat := ⟨some (Val.vstr ("idA")), some ("u2"), 11⟩

def c10Body2 : PageBody Nat := ⟨none, none, 12⟩

def c10Script : List (UpResponse Nat) := [⟨200, c10Body1, 1⟩, ⟨500, c10Body2, 2⟩]

def c10State : PagState Nat Unit := PagState.init

theorem C10_witness :
    ∃ e, (PolygonPaginator.query_all ("KEY") c10Script c10State ("u") [] false).trace.getLast? =
        some e ∧
      e.response.status = 500 ∧ ¬(500 : Nat) = 200 ∧ ¬(500 : Nat) = 429 ∧
      (PolygonPaginator.query_all ("KEY") c10Script c10State ("u") [] false).state.query_count =
        e.count_after :=
  (C10_frame_effects ("KEY") c10Script c10State ("u") [] false).2.2.2 500 (by decide)

/-- C5: for every non-empty `clean_results` collection of any of the three
record kinds, the batch generator succeeds and the concatenation of its
yielded batches, in order, is exactly the collection — no loss, no
duplication, no reordering. -/
theorem C5_batch_coverage :
    (∀ cr : List TickerMetadataRec, cr ≠ [] →
      ∃ bss, PolygonPaginator.make_clean_generator tickerRecLen cr = Except.ok bss ∧
        bss.flatten = cr) ∧
    (∀ cr : List PriceBarRec, cr ≠ [] →
      ∃ bss, PolygonPaginator.make_clean_generator priceBarRecLen cr = Except.ok bss ∧
        bss.flatten = cr) ∧
    (∀ cr : List OptionContractRec, cr ≠ [] →
      ∃ bss, PolygonPaginator.make_clean_generator contractRecLen cr = Except.ok bss ∧
        bss.flatten = cr) := by
  refine ⟨fun cr hne => ?_, fun cr hne => ?_, fun cr hne => ?_⟩
  · cases cr with
    | nil => exact absurd rfl hne
    | cons r rest =>
      exact ⟨_, PolygonPaginator.make_clean_generator_cons tickerRecLen r rest
        (by norm_num [tickerRecLen]) (by norm_num [tickerRecLen]),
        PolygonPaginator.pySlices_flatten _ _⟩
  · cases cr with
    | nil => exact absurd rfl hne
    | cons r rest =>
      exact ⟨_, PolygonPaginator.make_clean_generator_cons priceBarRecLen r rest
        (by norm_num [priceBarRecLen]) (by norm_num [priceBarRecLen]),
        PolygonPaginator.pySlices_flatten _ _⟩
  · cases cr with
    | nil => exact absurd rfl hne
    | cons r rest =>
      exact ⟨_, PolygonPaginator.make_clean_generator_cons contractRecLen r rest
        (by norm_num [contractRecLen]) (by norm_num [contractRecLen]),
        PolygonPaginator.pySlices_flatten _ _⟩

def c5Rec : TickerMetadataRec :=
  ⟨some (Val.vstr ("A")), none, none, none, none, none, none, none, none⟩

theorem C5_witness :
    ∃ bss, PolygonPaginator.make_clean_generator tickerRecLen [c5Rec] = Except.ok bss ∧
      bss.flatten = [c5Rec] :=
  C5_batch_coverage.1 [c5Rec] (by simp)

/-- C6: evaluation of the code at the degenerate input — consuming the
batch generator over an empty `clean_results` raises `IndexError`
(`clean_results[0]` on an empty list) instead of yielding zero batches, so
the code contradicts the documented degenerate-case behaviour. -/
theorem C6_empty_collection_raises :
    PolygonPaginator.make_clean_generator tickerRecLen
        ([] : List TickerMetadataRec) =
      Except.error ("IndexError: list index out of range") := rfl

def c7Rec : OptionContractRec :=
  ⟨some (Val.vstr ("O:X1")), none, none, none, none, none, none, none, 0⟩

/-- Python `round(60000 / 9)` is 6667 (the fractional part 2/3 exceeds a
half, so banker's rounding rounds up). -/
theorem pyRound_60000_9 : PolygonPaginator.pyRound ((60000 : ℚ) / 9) = 6667 := by
  have hf : ⌊(60000 : ℚ) / 9⌋ = 6666 := by
    rw [Int.floor_eq_iff]
    constructor <;> norm_num
  simp only [PolygonPaginator.pyRound]
  rw [hf]
  rw [if_neg (by norm_num), if_pos (by norm_num)]
  norm_num

/-- The batch length the generator computes for nine-key option-contract
records. -/
theorem contract_batch_size (r : OptionContractRec) :
    (PolygonPaginator.pyRound ((60000 : ℚ) / (contractRecLen r : ℚ))).toNat =
      6667 := by
  have hcl : ((contractRecLen r : ℕ) : ℚ) = 9 := by norm_num [contractRecLen]
  rw [hcl, pyRound_60000_9]
  rfl

/-- C7 counterexample: the code computes the batch length with Python
`round`, not `floor`, and `record_size` is the number of keys of the first
record dict: for nine-key option-contract records the batch length is
`round(60000 / 9) = 6667`, whereas `floor(60000 / 9) = 6666` — exhibited on
6668 records, whose first yielded batch holds 6667 records. -/
theorem C7_counterexample :
    (PolygonPaginator.make_clean_generator contractRecLen
        (List.replicate 6668 c7Rec)).map (fun bss => (bss.headD []).length) =
      Except.ok 6667 ∧ (60000 : Nat) / 9 = 6666 := by
  constructor
  · have hrep : List.replicate 6668 c7Rec = c7Rec :: List.replicate 6667 c7Rec := rfl
    rw [hrep, PolygonPaginator.make_clean_generator_cons contractRecLen c7Rec _
      (by decide) (by decide), contract_batch_size c7Rec]
    have hhead : (PolygonPaginator.pySlices (6667 - 1)
        (c7Rec :: List.replicate 6667 c7Rec)).headD [] =
        (c7Rec :: List.replicate 6667 c7Rec).take (6667 - 1 + 1) := by
      rw [PolygonPaginator.pySlices]
      rfl
    simp only [Except.map, hhead]
    rw [List.length_take, List.length_cons, List.length_replicate,
      show (6667 : Nat) - 1 + 1 = 6667 from rfl,
      min_eq_left (by omega : (6667 : Nat) ≤ 6667 + 1)]
  · rfl

/-- C7 amended: the batch length for the nine-key option-contract records
is `round(60000 / record_size) = 6667` (Python banker's rounding of
60000/9), where `record_size` is the number of keys of the first record
dict — not `floor` of a serialized byte size; the generator yields
consecutive slices covering the collection exactly, every batch holds at
most 6667 records, and every batch except possibly the last holds exactly
6667. -/
theorem C7_amended_batch_length (cr : List OptionContractRec) (hne : cr ≠ []) :
    ∃ bss, PolygonPaginator.make_clean_generator contractRecLen cr = Except.ok bss ∧
      bss.flatten = cr ∧ (∀ b ∈ bss, b.length ≤ 6667) ∧
      (∀ b ∈ bss.dropLast, b.length = 6667) ∧
      PolygonPaginator.pyRound ((60000 : ℚ) / 9) = 6667 := by
  cases cr with
  | nil => exact absurd rfl hne
  | cons r rest =>
    rw [PolygonPaginator.make_clean_generator_cons contractRecLen r rest
      (by norm_num [contractRecLen]) (by norm_num [contractRecLen])]
    have hbs : (PolygonPaginator.pyRound
        ((60000 : ℚ) / (contractRecLen r : ℚ))).toNat = 6667 :=
      contract_batch_size r
    refine ⟨_, rfl, PolygonPaginator.pySlices_flatten _ _, fun b hb => ?_,
      fun b hb => ?_, pyRound_60000_9⟩
    · have hle := PolygonPaginator.pySlices_length_le _ _ b hb
      rw [hbs] at hle
      omega
    · have heq := PolygonPaginator.pySlices_dropLast_length _ _ b hb
      rw [hbs] at heq
      omega

theorem C7_witness :
    ∃ bss, PolygonPaginator.make_clean_generator contractRecLen [c7Rec] =
        Except.ok bss ∧
      bss.flatten = [c7Rec] ∧ (∀ b ∈ bss, b.length ≤ 6667) ∧
      (∀ b ∈ bss.dropLast, b.length = 6667) ∧
      PolygonPaginator.pyRound ((60000 : ℚ) / 9) = 6667 :=
  C7_amended_batch_length [c7Rec] (by simp)

/-- C4: after `OptionsContracts.clean_data` runs over the accumulated raw
pages starting from empty `clean_results`, every occurring `option_ticker`
natural key is held by exactly one record of the result, and that record is
the last-processed occurrence of the key. -/
theorem C4_dedup_last_wins (tid : Int)
    (results : List (PageBody (List RawContractRec))) (k : Option Val)
    (hk : k ∈ (OptionsContracts.allRecs tid results).map
      (fun r => r.option_ticker)) :
    ((OptionsContracts.clean_data tid results []).filter
        (fun r => r.option_ticker = k)).length = 1 ∧
    ((OptionsContracts.clean_data tid results []).filter
        (fun r => r.option_ticker = k)) =
      (((OptionsContracts.allRecs tid results).filter
          (fun r => r.option_ticker = k)).getLast?).toList := by
  rw [OptionsContracts.clean_data_dedup, OptionsContracts.dedup_filter_key]
  refine ⟨?_, rfl⟩
  obtain ⟨v, hv, hvk⟩ := List.mem_map.1 hk
  have hmem : v ∈ (OptionsContracts.allRecs tid results).filter
      (fun r => r.option_ticker = k) :=
    List.mem_filter.2 ⟨hv, by simpa using hvk⟩
  have hne : (OptionsContracts.allRecs tid results).filter
      (fun r => r.option_ticker = k) ≠ [] := List.ne_nil_of_mem hmem
  obtain ⟨a, ha⟩ := Option.isSome_iff_exists.1 (List.getLast?_isSome.2 hne)
  rw [ha]
  rfl

def c4RawA : RawContractRec :=
  ⟨some (Val.vstr ("O:AAPL1")), some (Val.vint 1), none, none, none, none, none, none⟩

def c4RawB : RawContractRec :=
  ⟨some (Val.vstr ("O:AAPL1")), some (Val.vint 2), none, none, none, none, none, none⟩

def c4Pages : List (PageBody (List RawContractRec)) :=
  [⟨none, none, [c4RawA]⟩, ⟨none, none, [c4RawB]⟩]

theorem C4_witness :
    ((OptionsContracts.clean_data 7 c4Pages []).filter
        (fun r => r.option_ticker = some (Val.vstr ("O:AAPL1")))).length = 1 ∧
    ((OptionsContracts.clean_data 7 c4Pages []).filter
        (fun r => r.option_ticker = some (Val.vstr ("O:AAPL1")))) =
      (((OptionsContracts.allRecs 7 c4Pages).filter
          (fun r => r.option_ticker = some (Val.vstr ("O:AAPL1")))).getLast?).toList :=
  C4_dedup_last_wins 7 c4Pages (some (Val.vstr ("O:AAPL1"))) (by decide)

def c9Raw : RawTickerRec :=
  ⟨some (Val.vstr ("AAPL")), none, none, none, none, none, none, none, none⟩

def c9Pages : List (PageBody (List RawTickerRec)) := [⟨none, none, [c9Raw]⟩]

/-- C9 counterexample: `StockMetaData.clean_data` is not idempotent — on a
single page holding a single record, a second invocation over the same
`results` appends the record again, so `clean_results` differs from its
value after the first invocation. -/
theorem C9_counterexample :
    StockMetaData.clean_data c9Pages (StockMetaData.clean_data c9Pages []) ≠
      StockMetaData.clean_data c9Pages [] := by decide

/-- C9 amended: a second invocation of `clean_data` on the same state
re-appends the normalized records — `StockMetaData.clean_data` and
`HistoricalStockPrices.clean_data` are not idempotent (the second run
yields the first run's value with all records appended once more); only
`OptionsContracts.clean_data` is idempotent, because its per-append dedup
collapses the duplicates. -/
theorem C9_amended_reappend :
    (∀ results : List (PageBody (List RawTickerRec)),
      StockMetaData.clean_data results (StockMetaData.clean_data results []) =
        StockMetaData.clean_data results [] ++
          ((results.map PageBody.data).flatten).map StockMetaData.cleanRec) ∧
    (∀ (tid : Int) (results : List (PageBody (List RawBarRec))),
      HistoricalStockPrices.clean_data tid results
          (HistoricalStockPrices.clean_data tid results []) =
        HistoricalStockPrices.clean_data tid results [] ++
          ((results.map PageBody.data).flatten).map
            (HistoricalStockPrices.cleanRec tid)) ∧
    (∀ (tid : Int) (results : List (PageBody (List RawContractRec))),
      OptionsContracts.clean_data tid results
          (OptionsContracts.clean_data tid results []) =
        OptionsContracts.clean_data tid results []) := by
  refine ⟨fun results => ?_, fun tid results => ?_,
    fun tid results => OptionsContracts.clean_data_idem tid results⟩
  · rw [StockMetaData.stock_clean_data_eq, StockMetaData.stock_clean_data_eq]
  · rw [HistoricalStockPrices.prices_clean_data_eq, HistoricalStockPrices.prices_clean_data_eq]

/-- C8 counterexample: with the current date in February 2024 and
`months_hist = 13`, the calendar window generator yields 14 anchors, not
13, and the first anchor lies in February 2024, not January 2024 — the
walk starts at the current month and runs `months_hist + 1` steps. -/
theorem C8_counterexample :
    (OptionsContracts.determine_base_dates 2024 2 13).length = 14 ∧
    (OptionsContracts.determine_base_dates 2024 2 13).headD ("") =
      ("2024-02-01") := by
  constructor
  · rfl
  · decide

/-- C8 amended: with the current date in February 2024 and
`months_hist = 13`, `_determine_base_dates` yields the anchors February
2024 through January 2023 inclusive — 14 entries (`months_hist + 1`),
strictly decreasing month by month, each mapped to the first business day
of its month, crossing the January-to-December year-decrement boundary
exactly once. -/
theorem C8_amended_calendar_window :
    OptionsContracts.determine_base_dates 2024 2 13 =
      [("2024-02-01"), ("2024-01-01"), ("2023-12-01"), ("2023-11-01"),
        ("2023-10-02"), ("2023-09-01"), ("2023-08-01"), ("2023-07-03"),
        ("2023-06-01"), ("2023-05-01"), ("2023-04-03"), ("2023-03-01"),
        ("2023-02-01"), ("2023-01-02")] := by
  decide

end OptionBot
